import Mathlib

/-!
Verification of the event-detection engine of `app.py` (astral chart /
transit scanner).  The Python source is shallowly embedded below:

* Python floats are modelled as exact rationals (`ℚ`);
* the Swiss-Ephemeris oracle `swe.calc_ut` is modelled as an explicit
  function parameter `eph : ℚ → Int → ℚ` giving longitude of a body
  (identified by its Swiss-Ephemeris integer code) at a Julian-day instant;
* Python `a % b` on floats (sign of divisor, here always positive) is
  `pymod`, Python `int(x)` (truncation toward zero) is `pytrunc`;
* Python's stable `list.sort(key=...)` is modelled by a stable structural
  insertion sort `ordenarPor` (stable sorts agree extensionally, and a
  structural definition lets concrete runs be evaluated);
* Python dicts that are only built by `setdefault`/insert and then iterated
  are modelled as association lists preserving first-insertion order.

Definitions keep the Python names.  All numeric literals (`0.005`,
`1.5`, `1e-12`, …) are the exact rationals the float literals denote.
-/

/-- Python float modulo: `a % n = a - n * floor (a / n)` (for `n > 0` the
result is in `[0, n)`, as in Python). -/
def pymod (a n : ℚ) : ℚ := a - n * (Rat.floor (a / n) : ℚ)

/-- Python `int(x)`: truncation toward zero. -/
def pytrunc (q : ℚ) : Int := if 0 ≤ q then Rat.floor q else -Rat.floor (-q)

/-- `angular_difference` from app.py: minimal angular separation in degrees,
`d = |a % 360 - b % 360|; d if d <= 180 else 360 - d`. -/
def angular_difference (a b : ℚ) : ℚ :=
  let d := |pymod a 360 - pymod b 360|
  if d ≤ 180 then d else 360 - d

/-- Modelled from the spec (§4.1 AngularMetric), for comparison with the
source function: `d = |a mod 360 - b mod 360|; return d if d ≤ 180 else
360 - d`. -/
def separation_spec (a b : ℚ) : ℚ :=
  let d := |pymod a 360 - pymod b 360|
  if d ≤ 180 then d else 360 - d

/-- The zodiac-sign table `SIGNOS` from app.py (12 entries). -/
def SIGNOS : List String :=
  ["AR", "TA", "GE", "CA", "LE", "VI", "LI", "SC", "SG", "CP", "AQ", "PI"]

/-- Zero-padded two-digit rendering used by the `f"{x:02d}"` format specs. -/
def pad2 (n : Int) : String := (if 0 ≤ n ∧ n < 10 then "0" else "") ++ toString n

/-- `graus_para_dms` from app.py. -/
def graus_para_dms (graus : ℚ) : String :=
  let graus := pymod graus 360
  let g := pytrunc graus
  let m := pytrunc ((graus - g) * 60)
  let s := pytrunc (((graus - g) * 60 - m) * 60)
  pad2 g ++ "\xb0" ++ pad2 m ++ "\x27" ++ pad2 s ++ "\x22"

/-- The sign index computed inside `graus_para_signo_posicao`:
`int((graus % 360) / 30.0)` (no trailing `% 12` at this call site). -/
def graus_para_signo_idx (graus : ℚ) : Int := pytrunc (pymod graus 360 / 30)

/-- `graus_para_signo_posicao` from app.py: `(SIGNOS[idx], dms)` where
`idx = int((graus % 360)/30)` and the position inside the sign is
`graus % 30`. -/
def graus_para_signo_posicao (graus : ℚ) : String × String :=
  let g := pymod graus 360
  let pos_no_signo := pymod g 30
  (SIGNOS.getD (graus_para_signo_idx graus).toNat "", graus_para_dms pos_no_signo)

/-- `calcular_posicao_planeta` from app.py: `float(pos[0]) % 360.0`, with the
ephemeris as an explicit oracle. -/
def calcular_posicao_planeta (eph : ℚ → Int → ℚ) (jd : ℚ) (planeta : Int) : ℚ :=
  pymod (eph jd planeta) 360

/-- `calcular_declinacao_planeta` from app.py, with the equatorial-coordinate
oracle explicit.  (The scanner below never calls it: see the C9 theorems.) -/
def calcular_declinacao_planeta (ephEq : ℚ → Int → ℚ) (jd : ℚ) (planeta : Int) : ℚ :=
  ephEq jd planeta

/-- `determinar_intervalo` from app.py: sampling cadence keyed by the slower
(larger Swiss-Ephemeris code) body, default `0.5`. -/
def determinar_intervalo (planeta1 planeta2 : Int) : ℚ :=
  let lento := max planeta1 planeta2
  if lento = 1 then 1/200          -- swe.MOON    : 0.005
  else if lento = 2 then 1/50      -- swe.MERCURY : 0.02
  else if lento = 3 then 1/50      -- swe.VENUS   : 0.02
  else if lento = 0 then 1/20      -- swe.SUN     : 0.05
  else if lento = 4 then 1/20      -- swe.MARS    : 0.05
  else if lento = 5 then 1/10      -- swe.JUPITER : 0.1
  else if lento = 6 then 1/5       -- swe.SATURN  : 0.2
  else if lento = 7 then 1/2       -- swe.URANUS  : 0.5
  else if lento = 8 then 1/2       -- swe.NEPTUNE : 0.5
  else if lento = 9 then 1/2       -- swe.PLUTO   : 0.5
  else if lento = 11 then 1/5      -- swe.TRUE_NODE : 0.2
  else 1/2

-- ------------------------------------------------------------------ --
-- Data model.
-- ------------------------------------------------------------------ --

/-- The `Transito` dataclass from app.py. -/
structure Transito where
  jd_exato : ℚ
  planeta1 : Int
  planeta2 : Int
  aspecto : ℚ
  pos_planeta1 : ℚ
  pos_planeta2 : ℚ
  orbe : ℚ
  tipo : String
  planeta2_nome : String := ""
deriving DecidableEq

/-- The `EventoAstral` dataclass from app.py. -/
structure EventoAstral where
  jd_exato : ℚ
  tipo : String
  descricao : String
deriving DecidableEq

/-- One entry of `self.voc_periodos` (a dict literal in `calcular_voc_lua`). -/
structure VocPeriodo where
  jd_inicio : ℚ
  jd_fim : ℚ
  signo_saida : String
  signo_entrada : String
  duracao_hms : String
deriving DecidableEq

/-- `dias_para_hms` from app.py. -/
def dias_para_hms (dias : ℚ) : String :=
  let dias := |dias|
  let horas := dias * 24
  let h := pytrunc horas
  let minutos := (horas - h) * 60
  let m := pytrunc minutos
  let segundos := pytrunc ((minutos - m) * 60)
  pad2 h ++ ":" ++ pad2 m ++ ":" ++ pad2 segundos

-- ------------------------------------------------------------------ --
-- Stable sorting (model of Python's stable `list.sort(key=...)`).
-- ------------------------------------------------------------------ --

/-- Stable insertion of `a` into a list w.r.t. a boolean `le`. -/
def insOrdenado (le : α → α → Bool) (a : α) : List α → List α
  | [] => [a]
  | b :: l => if le a b then a :: b :: l else b :: insOrdenado le a l

/-- Stable insertion sort; extensionally equal to Python's stable
`list.sort` for the same (total, transitive) comparator. -/
def ordenarPor (le : α → α → Bool) : List α → List α
  | [] => []
  | a :: l => insOrdenado le a (ordenarPor le l)

/-- `sort(key=lambda x: x.jd_exato)`. -/
def ordenarJd (l : List Transito) : List Transito :=
  ordenarPor (fun a b => decide (a.jd_exato ≤ b.jd_exato)) l

-- ------------------------------------------------------------------ --
-- `_deduplicate_transitos` from app.py.
-- ------------------------------------------------------------------ --

/-- Python `round(x, 1)`: rounding to one decimal, ties to even. -/
def pyround1 (q : ℚ) : ℚ :=
  let x := q * 10
  let n := Rat.floor x
  let frac := x - (n : ℚ)
  let r : Int :=
    if frac < 1/2 then n
    else if 1/2 < frac then n + 1
    else if n % 2 = 0 then n else n + 1
  (r : ℚ) / 10

/-- The heterogeneous third component of the grouping key:
`trans.tipo if trans.tipo in ['PAR', 'CPA'] else round(trans.aspecto, 1)`. -/
inductive AspKey where
  | kind (s : String)
  | angle (q : ℚ)
deriving DecidableEq

/-- The grouping key of one transit. -/
def asp_key (t : Transito) : AspKey :=
  if t.tipo = "PAR" ∨ t.tipo = "CPA" then .kind t.tipo else .angle (pyround1 t.aspecto)

def chave (t : Transito) : Int × Int × AspKey := (t.planeta1, t.planeta2, asp_key t)

/-- `grupos.setdefault(chave, []).append(trans)` on an insertion-ordered dict
(modelled as an association list in first-insertion order). -/
def insereGrupo (k : Int × Int × AspKey) (t : Transito) :
    List ((Int × Int × AspKey) × List Transito) →
    List ((Int × Int × AspKey) × List Transito)
  | [] => [(k, [t])]
  | (k2, g) :: resto =>
    if k2 = k then (k2, g ++ [t]) :: resto else (k2, g) :: insereGrupo k t resto

/-- The `grupos` dict built by the first loop of `_deduplicate_transitos`. -/
def agrupar (ts : List Transito) : List ((Int × Int × AspKey) × List Transito) :=
  ts.foldl (fun gs t => insereGrupo (chave t) t gs) []

/-- The sub-cluster partition loop: `prev` is the previous (sorted) element,
`atual` the open cluster. -/
def clusterLoop (janela : ℚ) : Transito → List Transito → List Transito →
    List (List Transito)
  | _, atual, [] => [atual]
  | prev, atual, t :: resto =>
    if t.jd_exato - prev.jd_exato ≤ janela then clusterLoop janela t (atual ++ [t]) resto
    else atual :: clusterLoop janela t [t] resto

/-- Partition of a (sorted) group into sub-clusters of consecutive events at
most `janela` apart. -/
def subclusters (janela : ℚ) : List Transito → List (List Transito)
  | [] => []
  | t :: resto => clusterLoop janela t [t] resto

/-- Python `min(cluster, key=lambda x: x.orbe)` (first minimum on ties). -/
def minOrbe : Transito → List Transito → Transito
  | melhor, [] => melhor
  | melhor, u :: resto => minOrbe (if u.orbe < melhor.orbe then u else melhor) resto

/-- `min(cluster, key=...)` of a whole (nonempty) cluster, as a list. -/
def escolherMelhor : List Transito → List Transito
  | [] => []
  | t :: resto => [minOrbe t resto]

/-- Processing of one group: singleton groups pass through; larger groups are
sorted by instant, sub-clustered, and the minimum-residual event of each
sub-cluster is kept. -/
def dedupeGrupo (janela : ℚ) (g : List Transito) : List Transito :=
  if g.length = 1 then g
  else (subclusters janela (ordenarJd g)).flatMap escolherMelhor

/-- `_deduplicate_transitos` from app.py (default window 0.15 day). -/
def deduplicate_transitos (janela : ℚ) (ts : List Transito) : List Transito :=
  match ts with
  | [] => []
  | _ :: _ => ordenarJd (((agrupar ts).map (fun g => dedupeGrupo janela g.2)).flatten)

-- ------------------------------------------------------------------ --
-- `buscar_transito_exato` from app.py.
-- ------------------------------------------------------------------ --

/-- Second body of a search: a Swiss-Ephemeris code (planet pass,
`eh_ponto_fixo=False`) or a fixed longitude (`eh_ponto_fixo=True`). -/
def posicao_p2 (eph : ℚ → Int → ℚ) (jd : ℚ) : Int ⊕ ℚ → ℚ
  | .inl c => calcular_posicao_planeta eph jd c
  | .inr lon => lon

/-- `calcular_orbe_atual`, nested in `buscar_transito_exato`: signed error
`angular_difference(p1, p2) - angulo_aspecto`. -/
def calcular_orbe_atual (eph : ℚ → Int → ℚ) (planeta1 : Int) (planeta2 : Int ⊕ ℚ)
    (angulo_aspecto : ℚ) (jd : ℚ) : ℚ :=
  angular_difference (calcular_posicao_planeta eph jd planeta1)
    (posicao_p2 eph jd planeta2) - angulo_aspecto

/-- The 24 coarse samples `(jd, |f jd|)` (`NUM_SAMPLES = 24`). -/
def amostras24 (f : ℚ → ℚ) (jd_inicio jd_fim : ℚ) : List (ℚ × ℚ) :=
  (List.range 24).map (fun i : ℕ =>
    (jd_inicio + (i : ℚ) * ((jd_fim - jd_inicio) / 23),
     |f (jd_inicio + (i : ℚ) * ((jd_fim - jd_inicio) / 23))|))

/-- The running best `(melhor_jd, melhor_orbe)`, initialised `(0.0, 999.0)`,
updated on strictly smaller `|f|`. -/
def melhorAmostra (l : List (ℚ × ℚ)) : ℚ × ℚ :=
  l.foldl (fun melhor s => if s.2 < melhor.2 then (s.1, s.2) else melhor) (0, 999)

/-- First strict local minimum of `|f|` among consecutive sample triples,
returning the bracketing pair of neighbour instants. -/
def localMinBracket : List (ℚ × ℚ) → Option (ℚ × ℚ)
  | x :: y :: z :: resto =>
    if x.2 > y.2 ∧ y.2 < z.2 then some (x.1, z.1) else localMinBracket (y :: z :: resto)
  | _ => none

/-- Fallback bracket: the two samples adjacent to the first sample whose
instant equals `melhor_jd` (`max(0, idx-1)`, `min(23, idx+1)`). -/
def fallbackBracket (amostras : List (ℚ × ℚ)) (melhor_jd : ℚ) : ℚ × ℚ :=
  let idx := (amostras.findIdx? (fun s => s.1 == melhor_jd)).getD 0
  ((amostras.getD (idx - 1) (0, 0)).1, (amostras.getD (min 23 (idx + 1)) (0, 0)).1)

/-- The error-minimisation bisection loop (`BISSECCOES_MAX = 10`): `inl` is
the early return `(jd_meio, orbe_meio)` on `orbe_meio <= 0.001`, `inr` the
final `(melhor_jd, melhor_orbe)` after the iteration budget. -/
def bisseccoes (f : ℚ → ℚ) : Nat → ℚ → ℚ → ℚ × ℚ → (ℚ × ℚ) ⊕ (ℚ × ℚ)
  | 0, _, _, melhor => .inr melhor
  | n + 1, jd1, jd2, melhor =>
    let jd_meio := (jd1 + jd2) / 2
    let orbe_meio := |f jd_meio|
    let melhor2 := if orbe_meio < melhor.2 then (jd_meio, orbe_meio) else melhor
    if orbe_meio ≤ 1/1000 then .inl (jd_meio, orbe_meio)
    else
      if |f jd1| < |f jd2| then bisseccoes f n jd1 jd_meio melhor2
      else bisseccoes f n jd_meio jd2 melhor2

/-- `buscar_transito_exato` from app.py: 24 coarse samples, a 1.5x-orb abort
gate, bracket selection (first strict local minimum, else neighbours of the
global best), then at most 10 bisections with early exit at 0.001 and a final
`melhor_orbe <= orbe` acceptance gate; `(0.0, 999.0)` is the "not found"
sentinel. -/
def buscar_transito_exato (eph : ℚ → Int → ℚ) (jd_inicio jd_fim : ℚ)
    (planeta1 : Int) (planeta2 : Int ⊕ ℚ) (angulo_aspecto orbe : ℚ) : ℚ × ℚ :=
  let f := calcular_orbe_atual eph planeta1 planeta2 angulo_aspecto
  let amostras := amostras24 f jd_inicio jd_fim
  let melhor := melhorAmostra amostras
  if melhor.2 > orbe * (3/2) then (0, 999)
  else
    let brack0 := (localMinBracket amostras).getD (0, 0)
    let brack := if brack0.1 = 0 then fallbackBracket amostras melhor.1 else brack0
    match bisseccoes f 10 brack.1 brack.2 melhor with
    | .inl r => r
    | .inr m => if m.2 ≤ orbe then m else (0, 999)

-- ------------------------------------------------------------------ --
-- `buscar_mudanca_signo_exata` from app.py.
-- ------------------------------------------------------------------ --

/-- `signo_atual`, nested in `buscar_mudanca_signo_exata`:
`int(lon / 30.0) % 12` on the (already `% 360`-reduced) longitude. -/
def signo_atual (eph : ℚ → Int → ℚ) (planeta : Int) (jd : ℚ) : Int :=
  pytrunc (calcular_posicao_planeta eph jd planeta / 30) % 12

/-- The sign-ingress bisection loop (`BISSECCOES_MAX = 20`), deciding halves
purely by the discrete sign predicate and returning the midpoint as soon as
the updated bracket is narrower than `1.0e-12`. -/
def buscar_mudanca_go (eph : ℚ → Int → ℚ) (planeta signo_saida : Int) :
    Nat → ℚ → ℚ → ℚ
  | 0, jd1, jd2 => (jd1 + jd2) / 2
  | n + 1, jd1, jd2 =>
    let jd_meio := (jd1 + jd2) / 2
    let par := if signo_atual eph planeta jd_meio = signo_saida
      then (jd_meio, jd2) else (jd1, jd_meio)
    if |par.2 - par.1| < 1/1000000000000 then jd_meio
    else buscar_mudanca_go eph planeta signo_saida n par.1 par.2

/-- `buscar_mudanca_signo_exata` from app.py. -/
def buscar_mudanca_signo_exata (eph : ℚ → Int → ℚ) (jd1 jd2 : ℚ)
    (planeta signo_saida : Int) : ℚ :=
  buscar_mudanca_go eph planeta signo_saida 20 jd1 jd2

-- ------------------------------------------------------------------ --
-- `calcular_voc_lua` from app.py.
-- ------------------------------------------------------------------ --

/-- Python's substring test `sub in s`. -/
def infixoLista : List Char → List Char → Bool
  | sub, [] => sub.isEmpty
  | sub, a :: resto => sub.isPrefixOf (a :: resto) || infixoLista sub resto

def contemSub (sub s : String) : Bool := infixoLista sub.toList s.toList

/-- `t.planeta1 == swe.MOON or t.planeta2 == swe.MOON` (`swe.MOON = 1`). -/
def envolveLua (t : Transito) : Bool := t.planeta1 == 1 || t.planeta2 == 1

/-- The `aspectos_lua` list comprehension: transits involving the Moon
strictly before the ingress instant. -/
def aspectos_lua (transitos : List Transito) (jd_mudanca : ℚ) : List Transito :=
  transitos.filter (fun t => envolveLua t && decide (t.jd_exato < jd_mudanca))

/-- Python `max(l, key=lambda x: x.jd_exato)` (first maximum on ties). -/
def maxJd : Transito → List Transito → Transito
  | melhor, [] => melhor
  | melhor, u :: resto => maxJd (if melhor.jd_exato < u.jd_exato then u else melhor) resto

/-- Python `s.split()[-1]` (split on whitespace runs, last word). -/
def ultimaPalavra (s : String) : String :=
  ((s.splitOn " ").filter (fun w => !w.isEmpty)).getLastD ""

/-- The per-ingress loop of `calcular_voc_lua`, over the already-filtered
Moon ingress events. -/
def calcular_voc_lua_loop (eph : ℚ → Int → ℚ) (transitos : List Transito) :
    List EventoAstral → List VocPeriodo
  | [] => []
  | mudanca :: resto =>
    match aspectos_lua transitos mudanca.jd_exato with
    | [] => calcular_voc_lua_loop eph transitos resto
    | t :: ts =>
      { jd_inicio := (maxJd t ts).jd_exato + 1/86400
        jd_fim := mudanca.jd_exato
        signo_saida := SIGNOS.getD
          (pytrunc (calcular_posicao_planeta eph ((maxJd t ts).jd_exato + 1/86400) 1 / 30)
            % 12).toNat ""
        signo_entrada := ultimaPalavra mudanca.descricao
        duracao_hms := dias_para_hms
          (mudanca.jd_exato - ((maxJd t ts).jd_exato + 1/86400)) } ::
        calcular_voc_lua_loop eph transitos resto

/-- `calcular_voc_lua` from app.py, with the transit list and sign-change
event list as explicit inputs (`self.transitos`, `self.mudancas_signo`);
the Moon filter is the substring test `'LUA' in e.descricao`. -/
def calcular_voc_lua (eph : ℚ → Int → ℚ) (transitos : List Transito)
    (mudancas_signo : List EventoAstral) : List VocPeriodo :=
  calcular_voc_lua_loop eph transitos
    (mudancas_signo.filter (fun e => contemSub "LUA" e.descricao))

-- ------------------------------------------------------------------ --
-- `calcular_transitos` from app.py.
-- ------------------------------------------------------------------ --

/-- The `PLANETAS` dict from app.py, in insertion order
(Swiss-Ephemeris codes). -/
def PLANETAS : List (String × Int) :=
  [("SOL", 0), ("LUA", 1), ("MER", 2), ("VEN", 3), ("MAR", 4), ("JUP", 5),
   ("SAT", 6), ("URA", 7), ("NET", 8), ("PLU", 9), ("TNN", 11)]

/-- The `ORBES_PADRAO` dict from app.py, in insertion order. -/
def ORBES_PADRAO : List (ℚ × ℚ) :=
  [(0, 8), (45, 2), (60, 6), (90, 6), (120, 8), (135, 2), (150, 3), (180, 8)]

/-- `PLANETAS_MOVEIS` from app.py. -/
def PLANETAS_MOVEIS : List Int := [1, 2, 3, 4]

/-- The `while jd_atual < jd_fim` stepping loop, as the list of visited
`(jd_atual, jd_prox)` intervals.  (The `0 < intervalo` guard only makes the
recursion well-founded; every cadence the program uses is positive.) -/
def scanSteps (intervalo jd_fim jd_atual : ℚ) : List (ℚ × ℚ) :=
  if h : 0 < intervalo ∧ jd_atual < jd_fim then
    (jd_atual, min (jd_atual + intervalo) jd_fim) ::
      scanSteps intervalo jd_fim (min (jd_atual + intervalo) jd_fim)
  else []
termination_by (⌈(jd_fim - jd_atual) / intervalo⌉).toNat
decreasing_by
  obtain ⟨hi, hlt⟩ := h
  have hx : 0 < (jd_fim - jd_atual) / intervalo := by
    apply div_pos _ hi
    linarith
  have hpos : 0 < ⌈(jd_fim - jd_atual) / intervalo⌉ := Int.ceil_pos.mpr hx
  rcases le_or_lt (jd_atual + intervalo) jd_fim with hle | hgt
  · rw [min_eq_left hle]
    have h1 : (jd_fim - (jd_atual + intervalo)) / intervalo
        = (jd_fim - jd_atual) / intervalo - 1 := by
      field_simp
      ring
    rw [h1]
    rw [show ((jd_fim - jd_atual) / intervalo - 1 : ℚ)
        = (jd_fim - jd_atual) / intervalo - ((1 : ℤ) : ℚ) by push_cast; ring]
    rw [Int.ceil_sub_int]
    omega
  · rw [min_eq_right hgt.le, sub_self, zero_div]
    rw [show ((0:ℚ)) = ((0:ℤ) : ℚ) by norm_num, Int.ceil_intCast]
    omega

/-- The body of one `while` step of the planet-planet transit scan. -/
def passo_par (eph : ℚ → Int → ℚ) (jd_inicio jd_fim : ℚ) (p1 p2 : Int)
    (p2_nome : String) (aspecto_deg orbe : ℚ) (ab : ℚ × ℚ) : Option Transito :=
  let diff_atual := angular_difference (calcular_posicao_planeta eph ab.1 p1)
    (calcular_posicao_planeta eph ab.1 p2)
  let diff_prox := angular_difference (calcular_posicao_planeta eph ab.2 p1)
    (calcular_posicao_planeta eph ab.2 p2)
  if min |diff_atual - aspecto_deg| |diff_prox - aspecto_deg| ≤ orbe then
    let r := buscar_transito_exato eph ab.1 ab.2 p1 (.inl p2) aspecto_deg orbe
    if 0 < r.1 ∧ jd_inicio ≤ r.1 ∧ r.1 ≤ jd_fim ∧ r.2 < 1/200 then
      some { jd_exato := r.1, planeta1 := p1, planeta2 := p2, aspecto := aspecto_deg,
             pos_planeta1 := calcular_posicao_planeta eph r.1 p1,
             pos_planeta2 := calcular_posicao_planeta eph r.1 p2,
             orbe := r.2, tipo := "aspecto", planeta2_nome := p2_nome }
    else none
  else none

/-- The body of one `while` step of the moving-planet x fixed-point scan. -/
def passo_ponto (eph : ℚ → Int → ℚ) (jd_inicio jd_fim : ℚ) (planeta_code : Int)
    (ponto_nome : String) (ponto_lon : ℚ) (aspecto_deg orbe : ℚ) (ab : ℚ × ℚ) :
    Option Transito :=
  let diff_atual := angular_difference (calcular_posicao_planeta eph ab.1 planeta_code)
    ponto_lon
  let diff_prox := angular_difference (calcular_posicao_planeta eph ab.2 planeta_code)
    ponto_lon
  if min |diff_atual - aspecto_deg| |diff_prox - aspecto_deg| ≤ orbe then
    let r := buscar_transito_exato eph ab.1 ab.2 planeta_code (.inr ponto_lon)
      aspecto_deg orbe
    if 0 < r.1 ∧ jd_inicio ≤ r.1 ∧ r.1 ≤ jd_fim ∧ r.2 < 1/200 then
      some { jd_exato := r.1, planeta1 := planeta_code, planeta2 := -1,
             aspecto := aspecto_deg,
             pos_planeta1 := calcular_posicao_planeta eph r.1 planeta_code,
             pos_planeta2 := ponto_lon,
             orbe := r.2, tipo := "aspecto", planeta2_nome := ponto_nome }
    else none
  else none

/-- `for i, p1 in enumerate(l): for p2 in l[i+1:]`. -/
def paresOrdenados : List α → List (α × α)
  | [] => []
  | x :: xs => xs.map (fun y => (x, y)) ++ paresOrdenados xs

/-- `calcular_transitos` from app.py, with the scan window `[jd_inicio,
jd_fim]` and the fixed points (`self.pontos_fixos`, name and longitude)
explicit: the planet-planet longitude pass, the moving-planet x fixed-point
longitude pass, then `_deduplicate_transitos(janela_tempo=0.15)`. -/
def calcular_transitos (eph : ℚ → Int → ℚ) (jd_inicio jd_fim : ℚ)
    (pontos_fixos : List (String × ℚ)) : List Transito :=
  let pass1 := (paresOrdenados PLANETAS).flatMap (fun pq =>
    ORBES_PADRAO.flatMap (fun ao =>
      (scanSteps (determinar_intervalo pq.1.2 pq.2.2) jd_fim jd_inicio).filterMap
        (passo_par eph jd_inicio jd_fim pq.1.2 pq.2.2 pq.2.1 ao.1 ao.2)))
  let pass2 := pontos_fixos.flatMap (fun ponto =>
    (PLANETAS.filter (fun p => PLANETAS_MOVEIS.contains p.2)).flatMap (fun p =>
      ORBES_PADRAO.flatMap (fun ao =>
        (scanSteps (determinar_intervalo p.2 p.2) jd_fim jd_inicio).filterMap
          (passo_ponto eph jd_inicio jd_fim p.2 ponto.1 ponto.2 ao.1 ao.2))))
  deduplicate_transitos (3/20) (pass1 ++ pass2)

-- ------------------------------------------------------------------ --
-- Concrete instances used by counterexamples and witnesses.
-- ------------------------------------------------------------------ --

/-- Oracle whose signed error (conjunction to the fixed point 0) is a shallow
V with minimum value `0.0007` at `jd = 5`. -/
def eph_c1 : ℚ → Int → ℚ := fun jd _ => (1/250) * |jd - 5| + 7/10000

/-- Oracle whose signed error (conjunction to the fixed point 0) is the
linear-slope-2 V `2*|jd - 31/3|`. -/
def eph_c8 : ℚ → Int → ℚ := fun jd _ => 2 * |jd - 31/3|

/-- Oracle putting every body at longitude 0 at every instant (so every pair
is in exact conjunction, and in exact declination parallel). -/
def eph_zero : ℚ → Int → ℚ := fun _ _ => 0

/-- The 24 coarse samples of the constant-zero ephemeris over
`[0, 1/200]` (all signed errors are 0; instants step by `1/4600`). -/
def amostrasZeroLit : List (ℚ × ℚ) :=
  [(0, 0), (1/4600, 0), (1/2300, 0), (3/4600, 0), (1/1150, 0), (1/920, 0),
   (3/2300, 0), (7/4600, 0), (1/575, 0), (9/4600, 0), (1/460, 0), (11/4600, 0),
   (3/1150, 0), (13/4600, 0), (7/2300, 0), (3/920, 0), (2/575, 0), (17/4600, 0),
   (9/2300, 0), (19/4600, 0), (1/230, 0), (21/4600, 0), (11/2300, 0), (1/200, 0)]

/-- The 24 coarse samples of `eph_c1` (conjunction of planet 1 to the fixed
point 0) over `[0, 23]`: the V with minimum `0.0007` at `jd = 5`. -/
def amostrasC1Lit : List (ℚ × ℚ) :=
  [(0, 207/10000), (1, 167/10000), (2, 127/10000), (3, 87/10000), (4, 47/10000),
   (5, 7/10000), (6, 47/10000), (7, 87/10000), (8, 127/10000), (9, 167/10000),
   (10, 207/10000), (11, 247/10000), (12, 287/10000), (13, 327/10000),
   (14, 367/10000), (15, 407/10000), (16, 447/10000), (17, 487/10000),
   (18, 527/10000), (19, 567/10000), (20, 607/10000), (21, 647/10000),
   (22, 687/10000), (23, 727/10000)]

/-- The 24 coarse samples of `eph_c8` (conjunction of planet 1 to the fixed
point 0) over `[0, 23]`: the slope-2 V with root at `jd = 31/3`. -/
def amostrasC8Lit : List (ℚ × ℚ) :=
  [(0, 62/3), (1, 56/3), (2, 50/3), (3, 44/3), (4, 38/3), (5, 32/3), (6, 26/3),
   (7, 20/3), (8, 14/3), (9, 8/3), (10, 2/3), (11, 4/3), (12, 10/3), (13, 16/3),
   (14, 22/3), (15, 28/3), (16, 34/3), (17, 40/3), (18, 46/3), (19, 52/3),
   (20, 58/3), (21, 64/3), (22, 70/3), (23, 76/3)]

def evA : Transito := ⟨10, 0, 1, 0, 0, 0, 1/100, "aspecto", "LUA"⟩
def evB : Transito := ⟨0, 2, 3, 0, 0, 0, 1/100, "aspecto", "VEN"⟩
def evC : Transito := ⟨10, 2, 3, 0, 0, 0, 2/100, "aspecto", "VEN"⟩

def ev3a : Transito := ⟨0, 0, 1, 90, 0, 0, 1/50, "aspecto", "LUA"⟩
def ev3b : Transito := ⟨1/20, 0, 1, 90, 0, 0, 1/100, "aspecto", "LUA"⟩

def trC7 : Transito := ⟨10 - 1/172800, 1, 0, 0, 0, 0, 0, "aspecto", "SOL"⟩
def evC7 : EventoAstral := ⟨10, "entrada_signo", "LUA entra em AR"⟩
def trD7 : Transito := ⟨5, 1, 0, 0, 0, 0, 0, "aspecto", "SOL"⟩

-- ================================================================== --
-- Theorems.
-- ================================================================== --

-- ------------------------------------------------------------------ --
-- Basic facts about the Python-style mod and the angular metric.
-- ------------------------------------------------------------------ --

theorem pymod_eq_fract (a n : ℚ) (hn : n ≠ 0) :
    pymod a n = n * Int.fract (a / n) := by
  have h : (Rat.floor (a / n) : ℚ) = (⌊a / n⌋ : ℚ) := rfl
  rw [pymod, h, Int.fract]
  field_simp

theorem pymod_nonneg (a n : ℚ) (hn : 0 < n) : 0 ≤ pymod a n := by
  rw [pymod_eq_fract a n (ne_of_gt hn)]
  exact mul_nonneg (le_of_lt hn) (Int.fract_nonneg _)

theorem pymod_lt (a n : ℚ) (hn : 0 < n) : pymod a n < n := by
  rw [pymod_eq_fract a n (ne_of_gt hn)]
  calc n * Int.fract (a / n) < n * 1 := by
        exact (mul_lt_mul_left hn).mpr (Int.fract_lt_one _)
    _ = n := mul_one n

theorem pytrunc_eq_floor (q : ℚ) (h : 0 ≤ q) : pytrunc q = ⌊q⌋ := by
  simp [pytrunc, h]; rfl

/-- C2. `angular_difference` is symmetric, bounded in `[0, 180]`, and agrees
with the spec's reference definition of minimal angular separation. -/
theorem angular_difference_symm_bounds_spec (a b : ℚ) :
    angular_difference a b = angular_difference b a ∧
    0 ≤ angular_difference a b ∧ angular_difference a b ≤ 180 ∧
    angular_difference a b = separation_spec a b := by
  have hsymm : angular_difference a b = angular_difference b a := by
    unfold angular_difference
    rw [abs_sub_comm]
  have ha0 : 0 ≤ pymod a 360 := pymod_nonneg a 360 (by norm_num)
  have ha1 : pymod a 360 < 360 := pymod_lt a 360 (by norm_num)
  have hb0 : 0 ≤ pymod b 360 := pymod_nonneg b 360 (by norm_num)
  have hb1 : pymod b 360 < 360 := pymod_lt b 360 (by norm_num)
  have habs : |pymod a 360 - pymod b 360| < 360 := by
    rw [abs_lt]; constructor <;> linarith
  have habs0 : 0 ≤ |pymod a 360 - pymod b 360| := abs_nonneg _
  refine ⟨hsymm, ?_, ?_, rfl⟩
  · unfold angular_difference
    dsimp only
    split
    · exact habs0
    · linarith
  · unfold angular_difference
    dsimp only
    split
    · assumption
    · linarith

-- ------------------------------------------------------------------ --
-- The stable sort.
-- ------------------------------------------------------------------ --

theorem insOrdenado_perm (le : α → α → Bool) (a : α) (l : List α) :
    (insOrdenado le a l).Perm (a :: l) := by
  induction l with
  | nil => exact List.Perm.refl _
  | cons b l ih =>
    by_cases hb : le a b
    · simp [insOrdenado, hb]
    · simp only [insOrdenado, hb, Bool.false_eq_true, if_false]
      exact (ih.cons b).trans (List.Perm.swap a b l)

theorem ordenarPor_perm (le : α → α → Bool) (l : List α) :
    (ordenarPor le l).Perm l := by
  induction l with
  | nil => exact List.Perm.refl _
  | cons a l ih =>
    exact (insOrdenado_perm le a (ordenarPor le l)).trans (ih.cons a)

theorem insOrdenado_pairwise (le : α → α → Bool)
    (htot : ∀ a b, le a b = false → le b a = true)
    (htrans : ∀ a b c, le a b = true → le b c = true → le a c = true)
    (a : α) (l : List α) (hl : l.Pairwise (fun x y => le x y = true)) :
    (insOrdenado le a l).Pairwise (fun x y => le x y = true) := by
  induction l with
  | nil => simp [insOrdenado]
  | cons b l ih =>
    rw [List.pairwise_cons] at hl
    obtain ⟨hb, hl2⟩ := hl
    by_cases hab : le a b
    · simp only [insOrdenado, hab, if_true]
      rw [List.pairwise_cons]
      refine ⟨?_, List.pairwise_cons.mpr ⟨hb, hl2⟩⟩
      intro y hy
      rcases List.mem_cons.mp hy with h | h
      · rw [h]; exact hab
      · exact htrans a b y hab (hb y h)
    · simp only [insOrdenado, hab, Bool.false_eq_true, if_false]
      rw [List.pairwise_cons]
      refine ⟨?_, ih hl2⟩
      intro y hy
      have hy2 : y ∈ a :: l := ((insOrdenado_perm le a l).mem_iff).mp hy
      rcases List.mem_cons.mp hy2 with h | h
      · rw [h]
        exact htot a b (by simpa using hab)
      · exact hb y h

theorem ordenarPor_pairwise (le : α → α → Bool)
    (htot : ∀ a b, le a b = false → le b a = true)
    (htrans : ∀ a b c, le a b = true → le b c = true → le a c = true)
    (l : List α) : (ordenarPor le l).Pairwise (fun x y => le x y = true) := by
  induction l with
  | nil => simp [ordenarPor]
  | cons a l ih => exact insOrdenado_pairwise le htot htrans a _ ih

theorem ordenarJd_perm (l : List Transito) : (ordenarJd l).Perm l :=
  ordenarPor_perm _ l

theorem ordenarJd_sorted (l : List Transito) :
    (ordenarJd l).Pairwise (fun a b => a.jd_exato ≤ b.jd_exato) := by
  have := ordenarPor_pairwise (fun a b : Transito => decide (a.jd_exato ≤ b.jd_exato))
    (by intro a b h; simp at h ⊢; linarith)
    (by intro a b c h1 h2; simp at h1 h2 ⊢; linarith) l
  exact this.imp (by intro a b h; simpa using h)

-- ------------------------------------------------------------------ --
-- `min(cluster, key=orbe)` and `max(aspectos, key=jd)`.
-- ------------------------------------------------------------------ --

theorem minOrbe_mem (t : Transito) (l : List Transito) : minOrbe t l ∈ t :: l := by
  induction l generalizing t with
  | nil => simp [minOrbe]
  | cons u resto ih =>
    show minOrbe (if u.orbe < t.orbe then u else t) resto ∈ t :: u :: resto
    have h := ih (if u.orbe < t.orbe then u else t)
    have hmem : (if u.orbe < t.orbe then u else t) ∈ t :: u :: resto := by
      by_cases hu : u.orbe < t.orbe <;> simp [hu]
    rcases List.mem_cons.mp h with h1 | h1
    · rw [h1]; exact hmem
    · exact List.mem_cons_of_mem _ (List.mem_cons_of_mem _ h1)

theorem minOrbe_le (t : Transito) (l : List Transito) :
    ∀ u ∈ t :: l, (minOrbe t l).orbe ≤ u.orbe := by
  induction l generalizing t with
  | nil =>
    intro u hu
    rcases List.mem_cons.mp hu with h | h
    · rw [h]; simp [minOrbe]
    · exact absurd h (List.not_mem_nil u)
  | cons v resto ih =>
    intro u hu
    show (minOrbe (if v.orbe < t.orbe then v else t) resto).orbe ≤ u.orbe
    have hw1 : (minOrbe (if v.orbe < t.orbe then v else t) resto).orbe ≤
        (if v.orbe < t.orbe then v else t).orbe :=
      ih _ _ (List.mem_cons_self _ _)
    have hwt : (if v.orbe < t.orbe then v else t).orbe ≤ t.orbe := by
      by_cases h : v.orbe < t.orbe
      · rw [if_pos h]; exact h.le
      · rw [if_neg h]
    have hwv : (if v.orbe < t.orbe then v else t).orbe ≤ v.orbe := by
      by_cases h : v.orbe < t.orbe
      · rw [if_pos h]
      · rw [if_neg h]; exact le_of_not_lt h
    rcases List.mem_cons.mp hu with h | h
    · rw [h]; exact hw1.trans hwt
    · rcases List.mem_cons.mp h with h2 | h2
      · rw [h2]; exact hw1.trans hwv
      · exact ih _ u (List.mem_cons_of_mem _ h2)

theorem maxJd_mem (t : Transito) (l : List Transito) : maxJd t l ∈ t :: l := by
  induction l generalizing t with
  | nil => simp [maxJd]
  | cons u resto ih =>
    show maxJd (if t.jd_exato < u.jd_exato then u else t) resto ∈ t :: u :: resto
    have h := ih (if t.jd_exato < u.jd_exato then u else t)
    have hmem : (if t.jd_exato < u.jd_exato then u else t) ∈ t :: u :: resto := by
      by_cases hu : t.jd_exato < u.jd_exato <;> simp [hu]
    rcases List.mem_cons.mp h with h1 | h1
    · rw [h1]; exact hmem
    · exact List.mem_cons_of_mem _ (List.mem_cons_of_mem _ h1)

theorem maxJd_ge (t : Transito) (l : List Transito) :
    ∀ u ∈ t :: l, u.jd_exato ≤ (maxJd t l).jd_exato := by
  induction l generalizing t with
  | nil =>
    intro u hu
    rcases List.mem_cons.mp hu with h | h
    · rw [h]; simp [maxJd]
    · exact absurd h (List.not_mem_nil u)
  | cons v resto ih =>
    intro u hu
    show u.jd_exato ≤ (maxJd (if t.jd_exato < v.jd_exato then v else t) resto).jd_exato
    have hw1 : (if t.jd_exato < v.jd_exato then v else t).jd_exato ≤
        (maxJd (if t.jd_exato < v.jd_exato then v else t) resto).jd_exato :=
      ih _ _ (List.mem_cons_self _ _)
    have hwt : t.jd_exato ≤ (if t.jd_exato < v.jd_exato then v else t).jd_exato := by
      by_cases h : t.jd_exato < v.jd_exato
      · rw [if_pos h]; exact h.le
      · rw [if_neg h]
    have hwv : v.jd_exato ≤ (if t.jd_exato < v.jd_exato then v else t).jd_exato := by
      by_cases h : t.jd_exato < v.jd_exato
      · rw [if_pos h]
      · rw [if_neg h]; exact le_of_not_lt h
    rcases List.mem_cons.mp hu with h | h
    · rw [h]; exact hwt.trans hw1
    · rcases List.mem_cons.mp h with h2 | h2
      · rw [h2]; exact hwv.trans hw1
      · exact ih _ u (List.mem_cons_of_mem _ h2)

-- ------------------------------------------------------------------ --
-- The `grupos` dict (`agrupar`): keys, contents, and flattening.
-- ------------------------------------------------------------------ --

theorem insereGrupo_chave (k : Int × Int × AspKey) (t : Transito) (hk : chave t = k) :
    ∀ gs, (∀ p ∈ gs, ∀ x ∈ p.2, chave x = p.1) →
      ∀ p ∈ insereGrupo k t gs, ∀ x ∈ p.2, chave x = p.1 := by
  intro gs
  induction gs with
  | nil =>
    intro _ p hp x hx
    simp only [insereGrupo, List.mem_singleton] at hp
    subst hp
    simp only [List.mem_singleton] at hx
    subst hx
    exact hk
  | cons hd resto ih =>
    obtain ⟨k2, g⟩ := hd
    intro hgs p hp x hx
    simp only [insereGrupo] at hp
    by_cases he : k2 = k
    · rw [if_pos he] at hp
      rcases List.mem_cons.mp hp with h1 | h1
      · subst h1
        rcases List.mem_append.mp hx with h2 | h2
        · exact hgs (k2, g) (List.mem_cons_self _ _) x h2
        · simp only [List.mem_singleton] at h2
          subst h2
          rw [hk, he]
      · exact hgs p (List.mem_cons_of_mem _ h1) x hx
    · rw [if_neg he] at hp
      rcases List.mem_cons.mp hp with h1 | h1
      · subst h1
        exact hgs (k2, g) (List.mem_cons_self _ _) x hx
      · exact ih (fun q hq => hgs q (List.mem_cons_of_mem _ hq)) p h1 x hx

theorem agrupar_chave (ts : List Transito) :
    ∀ p ∈ agrupar ts, ∀ x ∈ p.2, chave x = p.1 := by
  have aux : ∀ (l : List Transito) gs, (∀ p ∈ gs, ∀ x ∈ p.2, chave x = p.1) →
      ∀ p ∈ l.foldl (fun acc t => insereGrupo (chave t) t acc) gs,
        ∀ x ∈ p.2, chave x = p.1 := by
    intro l
    induction l with
    | nil => intro gs h; simpa using h
    | cons t l ih =>
      intro gs h
      rw [List.foldl_cons]
      exact ih _ (insereGrupo_chave (chave t) t rfl gs h)
  exact aux ts [] (by simp)

theorem insereGrupo_keys (k : Int × Int × AspKey) (t : Transito) :
    ∀ gs, (insereGrupo k t gs).map Prod.fst =
      if k ∈ gs.map Prod.fst then gs.map Prod.fst else gs.map Prod.fst ++ [k] := by
  intro gs
  induction gs with
  | nil => simp [insereGrupo]
  | cons hd resto ih =>
    obtain ⟨k2, g⟩ := hd
    by_cases he : k2 = k
    · subst he
      simp [insereGrupo]
    · simp only [insereGrupo, if_neg he, List.map_cons, ih]
      by_cases hm : k ∈ resto.map Prod.fst
      · rw [if_pos hm,
          if_pos (show k ∈ k2 :: resto.map Prod.fst from List.mem_cons_of_mem _ hm)]
      · have hnot : k ∉ k2 :: resto.map Prod.fst := by
          intro hc
          rcases List.mem_cons.mp hc with h1 | h1
          · exact he h1.symm
          · exact hm h1
        rw [if_neg hm, if_neg hnot, List.cons_append]

theorem insereGrupo_keys_nodup (k : Int × Int × AspKey) (t : Transito) (gs)
    (h : (gs.map Prod.fst).Nodup) : ((insereGrupo k t gs).map Prod.fst).Nodup := by
  rw [insereGrupo_keys]
  by_cases hm : k ∈ gs.map Prod.fst
  · rw [if_pos hm]; exact h
  · rw [if_neg hm, List.nodup_append]
    refine ⟨h, List.nodup_singleton k, ?_⟩
    intro a ha hb
    rw [List.mem_singleton] at hb
    subst hb
    exact hm ha

theorem agrupar_keys_nodup (ts : List Transito) : ((agrupar ts).map Prod.fst).Nodup := by
  have aux : ∀ (l : List Transito) gs, (gs.map Prod.fst).Nodup →
      (((l.foldl (fun acc t => insereGrupo (chave t) t acc) gs).map Prod.fst).Nodup) := by
    intro l
    induction l with
    | nil => intro gs h; simpa using h
    | cons t l ih =>
      intro gs h
      rw [List.foldl_cons]
      exact ih _ (insereGrupo_keys_nodup _ t gs h)
  exact aux ts [] (by simp)

theorem insereGrupo_flatten_perm (k : Int × Int × AspKey) (t : Transito) (gs) :
    ((insereGrupo k t gs).map Prod.snd).flatten.Perm
      (((gs.map Prod.snd).flatten) ++ [t]) := by
  induction gs with
  | nil => simp [insereGrupo]
  | cons hd resto ih =>
    obtain ⟨k2, g⟩ := hd
    by_cases he : k2 = k
    · simp only [insereGrupo, if_pos he, List.map_cons, List.flatten_cons]
      rw [List.append_assoc, List.append_assoc]
      exact List.Perm.append_left g List.perm_append_comm
    · simp only [insereGrupo, if_neg he, List.map_cons, List.flatten_cons]
      rw [List.append_assoc]
      exact List.Perm.append_left g ih

theorem agrupar_flatten_perm (ts : List Transito) :
    (((agrupar ts).map Prod.snd).flatten).Perm ts := by
  have aux : ∀ (l : List Transito) gs,
      (((l.foldl (fun acc t => insereGrupo (chave t) t acc) gs).map Prod.snd).flatten).Perm
        ((gs.map Prod.snd).flatten ++ l) := by
    intro l
    induction l with
    | nil => intro gs; simp
    | cons t l ih =>
      intro gs
      rw [List.foldl_cons]
      refine (ih (insereGrupo (chave t) t gs)).trans ?_
      refine ((insereGrupo_flatten_perm (chave t) t gs).append_right l).trans ?_
      rw [List.append_assoc, List.singleton_append]
  simpa [agrupar] using aux ts []

theorem insereGrupo_sublist (k : Int × Int × AspKey) (t : Transito)
    (pre : List Transito) (gs) (h : ∀ p ∈ gs, p.2.Sublist pre) :
    ∀ p ∈ insereGrupo k t gs, p.2.Sublist (pre ++ [t]) := by
  induction gs with
  | nil =>
    intro p hp
    simp only [insereGrupo, List.mem_singleton] at hp
    subst hp
    exact List.Sublist.append (List.nil_sublist pre) (List.Sublist.refl [t])
  | cons hd resto ih =>
    obtain ⟨k2, g⟩ := hd
    intro p hp
    simp only [insereGrupo] at hp
    by_cases he : k2 = k
    · rw [if_pos he] at hp
      rcases List.mem_cons.mp hp with h1 | h1
      · subst h1
        exact List.Sublist.append (h (k2, g) (List.mem_cons_self _ _))
          (List.Sublist.refl [t])
      · exact (h p (List.mem_cons_of_mem _ h1)).trans (List.sublist_append_left pre [t])
    · rw [if_neg he] at hp
      rcases List.mem_cons.mp hp with h1 | h1
      · subst h1
        exact (h (k2, g) (List.mem_cons_self _ _)).trans (List.sublist_append_left pre [t])
      · exact ih (fun q hq => h q (List.mem_cons_of_mem _ hq)) p h1

theorem agrupar_sublist (ts : List Transito) : ∀ p ∈ agrupar ts, p.2.Sublist ts := by
  have aux : ∀ (l pre : List Transito) gs, (∀ p ∈ gs, p.2.Sublist pre) →
      ∀ p ∈ l.foldl (fun acc t => insereGrupo (chave t) t acc) gs,
        p.2.Sublist (pre ++ l) := by
    intro l
    induction l with
    | nil =>
      intro pre gs h p hp
      rw [List.foldl_nil] at hp
      simpa using h p hp
    | cons t l ih =>
      intro pre gs h p hp
      rw [List.foldl_cons] at hp
      have h2 := ih (pre ++ [t]) _ (insereGrupo_sublist (chave t) t pre gs h) p hp
      rw [List.append_assoc] at h2
      simpa using h2
  intro p hp
  simpa using aux ts [] [] (by simp) p hp

-- ------------------------------------------------------------------ --
-- Sub-cluster partitioning.
-- ------------------------------------------------------------------ --

theorem clusterLoop_flatten (janela : ℚ) :
    ∀ (resto : List Transito) (prev : Transito) (atual : List Transito),
      (clusterLoop janela prev atual resto).flatten = atual ++ resto := by
  intro resto
  induction resto with
  | nil => intro prev atual; simp [clusterLoop]
  | cons t r ih =>
    intro prev atual
    simp only [clusterLoop]
    by_cases hg : t.jd_exato - prev.jd_exato ≤ janela
    · rw [if_pos hg, ih t (atual ++ [t]), List.append_assoc, List.singleton_append]
    · rw [if_neg hg, List.flatten_cons, ih t [t], List.singleton_append]

theorem clusterLoop_subset (janela : ℚ) (resto : List Transito) (prev : Transito)
    (atual : List Transito) :
    ∀ c ∈ clusterLoop janela prev atual resto, ∀ b ∈ c, b ∈ atual ++ resto := by
  intro c hc b hb
  have h : b ∈ (clusterLoop janela prev atual resto).flatten :=
    List.mem_flatten.mpr ⟨c, hc, hb⟩
  rwa [clusterLoop_flatten] at h

theorem clusterLoop_ne_nil (janela : ℚ) :
    ∀ (resto : List Transito) (prev : Transito) (atual : List Transito), atual ≠ [] →
      ∀ c ∈ clusterLoop janela prev atual resto, c ≠ [] := by
  intro resto
  induction resto with
  | nil =>
    intro prev atual ha c hc
    simp only [clusterLoop, List.mem_singleton] at hc
    subst hc
    exact ha
  | cons t r ih =>
    intro prev atual ha c hc
    simp only [clusterLoop] at hc
    by_cases hg : t.jd_exato - prev.jd_exato ≤ janela
    · rw [if_pos hg] at hc
      exact ih t (atual ++ [t]) (by simp) c hc
    · rw [if_neg hg] at hc
      rcases List.mem_cons.mp hc with h1 | h1
      · subst h1; exact ha
      · exact ih t [t] (by simp) c h1

theorem clusterLoop_nonempty (janela : ℚ) :
    ∀ (resto : List Transito) (prev : Transito) (atual : List Transito),
      clusterLoop janela prev atual resto ≠ [] := by
  intro resto
  induction resto with
  | nil => intro prev atual; simp [clusterLoop]
  | cons t r ih =>
    intro prev atual
    simp only [clusterLoop]
    by_cases hg : t.jd_exato - prev.jd_exato ≤ janela
    · rw [if_pos hg]; exact ih t (atual ++ [t])
    · rw [if_neg hg]; exact List.cons_ne_nil _ _

theorem clusterLoop_pairwise (janela : ℚ) :
    ∀ (resto : List Transito) (prev : Transito) (atual : List Transito),
      (∀ a ∈ atual, a.jd_exato ≤ prev.jd_exato) →
      resto.Pairwise (fun a b => a.jd_exato ≤ b.jd_exato) →
      (∀ r ∈ resto, prev.jd_exato ≤ r.jd_exato) →
      (clusterLoop janela prev atual resto).Pairwise
        (fun c d => ∀ a ∈ c, ∀ b ∈ d, janela < b.jd_exato - a.jd_exato) := by
  intro resto
  induction resto with
  | nil => intro prev atual _ _ _; simp [clusterLoop]
  | cons t r ih =>
    intro prev atual h1 h2 h3
    rw [List.pairwise_cons] at h2
    obtain ⟨ht, hr⟩ := h2
    have hpt : prev.jd_exato ≤ t.jd_exato := h3 t (List.mem_cons_self _ _)
    simp only [clusterLoop]
    by_cases hg : t.jd_exato - prev.jd_exato ≤ janela
    · rw [if_pos hg]
      apply ih t (atual ++ [t])
      · intro a ha
        rcases List.mem_append.mp ha with h | h
        · exact (h1 a h).trans hpt
        · simp only [List.mem_singleton] at h; subst h; exact le_refl _
      · exact hr
      · exact ht
    · rw [if_neg hg]
      push_neg at hg
      rw [List.pairwise_cons]
      constructor
      · intro d hd a ha b hb
        have hbm : b ∈ [t] ++ r := clusterLoop_subset janela r t [t] d hd b hb
        have hb2 : t.jd_exato ≤ b.jd_exato := by
          rcases List.mem_append.mp hbm with h | h
          · simp only [List.mem_singleton] at h; subst h; exact le_refl _
          · exact ht b h
        have ha2 : a.jd_exato ≤ prev.jd_exato := h1 a ha
        linarith
      · apply ih t [t]
        · intro a ha
          simp only [List.mem_singleton] at ha
          subst ha
          exact le_refl _
        · exact hr
        · exact ht

theorem clusterLoop_chain (janela : ℚ) :
    ∀ (resto : List Transito) (prev : Transito) (atual : List Transito),
      List.Chain (fun a b => janela < b.jd_exato - a.jd_exato) prev resto →
      clusterLoop janela prev atual resto = atual :: resto.map (fun t => [t]) := by
  intro resto
  induction resto with
  | nil => intro prev atual _; simp [clusterLoop]
  | cons t r ih =>
    intro prev atual hch
    rw [List.chain_cons] at hch
    obtain ⟨hgap, hch2⟩ := hch
    simp only [clusterLoop]
    rw [if_neg (by linarith), ih t [t] hch2, List.map_cons]

theorem subclusters_flatten (janela : ℚ) (l : List Transito) :
    (subclusters janela l).flatten = l := by
  cases l with
  | nil => simp [subclusters]
  | cons t r =>
    simp only [subclusters]
    rw [clusterLoop_flatten, List.singleton_append]

theorem subclusters_ne_nil (janela : ℚ) (l : List Transito) :
    ∀ c ∈ subclusters janela l, c ≠ [] := by
  cases l with
  | nil => simp [subclusters]
  | cons t r => exact clusterLoop_ne_nil janela r t [t] (by simp)

theorem subclusters_pairwise (janela : ℚ) (l : List Transito)
    (hsor : l.Pairwise (fun a b => a.jd_exato ≤ b.jd_exato)) :
    (subclusters janela l).Pairwise
      (fun c d => ∀ a ∈ c, ∀ b ∈ d, janela < b.jd_exato - a.jd_exato) := by
  cases l with
  | nil => simp [subclusters]
  | cons t r =>
    rw [List.pairwise_cons] at hsor
    exact clusterLoop_pairwise janela r t [t] (by simp) hsor.2 hsor.1

theorem subclusters_chain (janela : ℚ) (l : List Transito)
    (h : l.Chain' (fun a b => janela < b.jd_exato - a.jd_exato)) :
    subclusters janela l = l.map (fun t => [t]) := by
  cases l with
  | nil => simp [subclusters]
  | cons t r =>
    simp only [subclusters, List.map_cons]
    exact clusterLoop_chain janela r t [t] h

-- ------------------------------------------------------------------ --
-- Per-group deduplication.
-- ------------------------------------------------------------------ --

theorem escolherMelhor_sublist (c : List Transito) : (escolherMelhor c).Sublist c := by
  cases c with
  | nil => simp [escolherMelhor]
  | cons t resto =>
    simp only [escolherMelhor]
    exact List.singleton_sublist.mpr (minOrbe_mem t resto)

theorem flatMap_escolherMelhor_sublist (cs : List (List Transito)) :
    (cs.flatMap escolherMelhor).Sublist cs.flatten := by
  induction cs with
  | nil => simp
  | cons c cs ih =>
    simp only [List.flatMap_cons, List.flatten_cons]
    exact List.Sublist.append (escolherMelhor_sublist c) ih

theorem flatMap_escolherMelhor_singletons (l : List Transito) :
    ((l.map (fun t => [t])).flatMap escolherMelhor) = l := by
  induction l with
  | nil => simp
  | cons t r ih =>
    simp only [List.map_cons, List.flatMap_cons, escolherMelhor, minOrbe]
    rw [ih, List.singleton_append]

theorem dedupeGrupo_subperm (janela : ℚ) (g : List Transito) :
    (dedupeGrupo janela g).Subperm g := by
  unfold dedupeGrupo
  by_cases hl : g.length = 1
  · rw [if_pos hl]
  · rw [if_neg hl]
    have h1 := flatMap_escolherMelhor_sublist (subclusters janela (ordenarJd g))
    rw [subclusters_flatten] at h1
    exact h1.subperm.trans (ordenarJd_perm g).subperm

theorem dedupeGrupo_subset (janela : ℚ) (g : List Transito) :
    ∀ t ∈ dedupeGrupo janela g, t ∈ g :=
  fun t ht => (dedupeGrupo_subperm janela g).subset ht

theorem dedupeGrupo_ne_nil (janela : ℚ) (g : List Transito) (h : g ≠ []) :
    dedupeGrupo janela g ≠ [] := by
  unfold dedupeGrupo
  by_cases hl : g.length = 1
  · rw [if_pos hl]; exact h
  · rw [if_neg hl]
    have hlen : (ordenarJd g).length = g.length := (ordenarJd_perm g).length_eq
    cases hs : ordenarJd g with
    | nil =>
      exfalso
      rw [hs] at hlen
      exact h (List.length_eq_zero.mp hlen.symm)
    | cons t r =>
      simp only [subclusters, hs]
      have hne := clusterLoop_nonempty janela r t [t]
      have hcl := clusterLoop_ne_nil janela r t [t] (by simp)
      cases hcc : clusterLoop janela t [t] r with
      | nil => exact absurd hcc hne
      | cons c cs =>
        have hc : c ≠ [] := hcl c (hcc ▸ List.mem_cons_self c cs)
        cases hc2 : c with
        | nil => exact absurd hc2 hc
        | cons x xs =>
          simp [List.flatMap_cons, escolherMelhor]

theorem dedupeGrupo_pairwise_gap (janela : ℚ) (g : List Transito) :
    (dedupeGrupo janela g).Pairwise
      (fun a b => janela < b.jd_exato - a.jd_exato) := by
  unfold dedupeGrupo
  by_cases hl : g.length = 1
  · rw [if_pos hl]
    cases g with
    | nil => simp at hl
    | cons t r =>
      cases r with
      | nil => simp
      | cons u s => simp at hl
  · rw [if_neg hl]
    rw [show (subclusters janela (ordenarJd g)).flatMap escolherMelhor
        = ((subclusters janela (ordenarJd g)).map escolherMelhor).flatten from
        (List.flatMap_def _ _)]
    rw [List.pairwise_flatten]
    constructor
    · intro c hc
      obtain ⟨d, _, rfl⟩ := List.mem_map.mp hc
      cases d with
      | nil => simp [escolherMelhor]
      | cons x y => simp [escolherMelhor]
    · rw [List.pairwise_map]
      refine (subclusters_pairwise janela (ordenarJd g) (ordenarJd_sorted g)).imp ?_
      intro c d hcd x hx y hy
      exact hcd x ((escolherMelhor_sublist c).subset hx) y
        ((escolherMelhor_sublist d).subset hy)

theorem dedupeGrupo_perm_of_sep (janela : ℚ) (hj : 0 ≤ janela) (g : List Transito)
    (hsep : g.Pairwise (fun a b =>
      janela < b.jd_exato - a.jd_exato ∨ janela < a.jd_exato - b.jd_exato)) :
    (dedupeGrupo janela g).Perm g := by
  unfold dedupeGrupo
  by_cases hl : g.length = 1
  · rw [if_pos hl]
  · rw [if_neg hl]
    have hsym : ∀ {x y : Transito},
        (janela < y.jd_exato - x.jd_exato ∨ janela < x.jd_exato - y.jd_exato) →
        (janela < x.jd_exato - y.jd_exato ∨ janela < y.jd_exato - x.jd_exato) :=
      fun h => h.symm
    have hsep2 := ((ordenarJd_perm g).pairwise_iff hsym).mpr hsep
    have hgap : (ordenarJd g).Pairwise
        (fun a b => janela < b.jd_exato - a.jd_exato) := by
      refine ((ordenarJd_sorted g).and hsep2).imp ?_
      rintro a b ⟨hle, hor⟩
      rcases hor with h | h
      · exact h
      · exact absurd hle (by linarith)
    rw [subclusters_chain janela _ hgap.chain', flatMap_escolherMelhor_singletons]
    exact ordenarJd_perm g

-- ------------------------------------------------------------------ --
-- Whole-list deduplication.
-- ------------------------------------------------------------------ --

theorem subperm_append_both {l1 l2 r1 r2 : List α} (h1 : l1.Subperm l2)
    (h2 : r1.Subperm r2) : (l1 ++ r1).Subperm (l2 ++ r2) := by
  obtain ⟨m1, hm1p, hm1s⟩ := h1
  obtain ⟨m2, hm2p, hm2s⟩ := h2
  exact ⟨m1 ++ m2, hm1p.append hm2p, hm1s.append hm2s⟩

theorem flatten_dedupeGrupo_subperm (janela : ℚ)
    (gs : List ((Int × Int × AspKey) × List Transito)) :
    ((gs.map (fun g => dedupeGrupo janela g.2)).flatten).Subperm
      ((gs.map Prod.snd).flatten) := by
  induction gs with
  | nil => exact List.Subperm.refl []
  | cons g gs ih =>
    simp only [List.map_cons, List.flatten_cons]
    exact subperm_append_both (dedupeGrupo_subperm janela g.2) ih

theorem flatten_map_perm_pointwise {β : Type} {f g : β → List Transito} (l : List β)
    (h : ∀ x ∈ l, (f x).Perm (g x)) :
    ((l.map f).flatten).Perm ((l.map g).flatten) := by
  induction l with
  | nil => exact List.Perm.refl []
  | cons x l ih =>
    simp only [List.map_cons, List.flatten_cons]
    exact (h x (List.mem_cons_self _ _)).append (ih (fun y hy => h y (List.mem_cons_of_mem _ hy)))

theorem deduplicate_subperm (janela : ℚ) (ts : List Transito) :
    (deduplicate_transitos janela ts).Subperm ts := by
  cases ts with
  | nil => exact List.Subperm.refl []
  | cons t r =>
    show (ordenarJd _).Subperm (t :: r)
    refine ((ordenarJd_perm _).subperm).trans ?_
    refine (flatten_dedupeGrupo_subperm janela _).trans ?_
    exact (agrupar_flatten_perm (t :: r)).subperm

theorem deduplicate_subset (janela : ℚ) (ts : List Transito) :
    ∀ x ∈ deduplicate_transitos janela ts, x ∈ ts :=
  fun x hx => (deduplicate_subperm janela ts).subset hx

theorem deduplicate_sorted (janela : ℚ) (ts : List Transito) :
    (deduplicate_transitos janela ts).Pairwise
      (fun a b => a.jd_exato ≤ b.jd_exato) := by
  cases ts with
  | nil => simp [deduplicate_transitos]
  | cons t r => exact ordenarJd_sorted _

theorem deduplicate_ne_nil (janela : ℚ) (ts : List Transito) (h : ts ≠ []) :
    deduplicate_transitos janela ts ≠ [] := by
  cases ts with
  | nil => exact absurd rfl h
  | cons t r =>
    show ordenarJd _ ≠ []
    have hperm := agrupar_flatten_perm (t :: r)
    have ht : t ∈ ((agrupar (t :: r)).map Prod.snd).flatten :=
      hperm.mem_iff.mpr (List.mem_cons_self t r)
    obtain ⟨g2, hg2, htg⟩ := List.mem_flatten.mp ht
    obtain ⟨p, hp, hpe⟩ := List.mem_map.mp hg2
    have hgne : p.2 ≠ [] := by
      intro hnil
      rw [← hpe, hnil] at htg
      exact absurd htg (List.not_mem_nil t)
    have hdne : dedupeGrupo janela p.2 ≠ [] := dedupeGrupo_ne_nil janela p.2 hgne
    obtain ⟨x, hx⟩ := List.exists_mem_of_ne_nil _ hdne
    have hxf : x ∈ ((agrupar (t :: r)).map (fun g => dedupeGrupo janela g.2)).flatten :=
      List.mem_flatten.mpr ⟨dedupeGrupo janela p.2,
        List.mem_map.mpr ⟨p, hp, rfl⟩, hx⟩
    intro hc
    have hx2 : x ∈ ordenarJd (((agrupar (t :: r)).map
        (fun g => dedupeGrupo janela g.2)).flatten) :=
      (ordenarJd_perm _).mem_iff.mpr hxf
    rw [hc] at hx2
    exact absurd hx2 (List.not_mem_nil x)

theorem deduplicate_pairwise_chave (janela : ℚ) (ts : List Transito) :
    (deduplicate_transitos janela ts).Pairwise
      (fun a b => chave a = chave b →
        janela < b.jd_exato - a.jd_exato ∨ janela < a.jd_exato - b.jd_exato) := by
  cases ts with
  | nil => simp [deduplicate_transitos]
  | cons t r =>
    show (ordenarJd _).Pairwise _
    have hsym : ∀ {x y : Transito},
        (chave x = chave y →
          janela < y.jd_exato - x.jd_exato ∨ janela < x.jd_exato - y.jd_exato) →
        (chave y = chave x →
          janela < x.jd_exato - y.jd_exato ∨ janela < y.jd_exato - x.jd_exato) :=
      fun h he => (h he.symm).symm
    refine ((ordenarJd_perm _).pairwise_iff hsym).mpr ?_
    rw [List.pairwise_flatten]
    constructor
    · intro l hl
      obtain ⟨p, _, rfl⟩ := List.mem_map.mp hl
      exact (dedupeGrupo_pairwise_gap janela p.2).imp (fun h _ => Or.inl h)
    · rw [List.pairwise_map]
      have hkeys : ((agrupar (t :: r)).map Prod.fst).Nodup := agrupar_keys_nodup (t :: r)
      rw [List.Nodup, List.pairwise_map] at hkeys
      refine hkeys.imp_of_mem ?_
      intro p q hp hq hne x hx y hy he
      exfalso
      apply hne
      have hx2 : chave x = p.1 := agrupar_chave (t :: r) p hp x (dedupeGrupo_subset janela p.2 x hx)
      have hy2 : chave y = q.1 := agrupar_chave (t :: r) q hq y (dedupeGrupo_subset janela q.2 y hy)
      rw [← hx2, ← hy2, he]

theorem deduplicate_perm_of_sep (janela : ℚ) (hj : 0 ≤ janela) (Y : List Transito)
    (hsep : Y.Pairwise (fun a b => chave a = chave b →
      janela < b.jd_exato - a.jd_exato ∨ janela < a.jd_exato - b.jd_exato)) :
    (deduplicate_transitos janela Y).Perm Y := by
  cases Y with
  | nil => exact List.Perm.refl []
  | cons t r =>
    show (ordenarJd _).Perm (t :: r)
    refine (ordenarJd_perm _).trans ?_
    refine List.Perm.trans ?_ (agrupar_flatten_perm (t :: r))
    apply flatten_map_perm_pointwise
    intro p hp
    apply dedupeGrupo_perm_of_sep janela hj
    have hsub : p.2.Sublist (t :: r) := agrupar_sublist (t :: r) p hp
    have hsep2 := List.Pairwise.sublist hsub hsep
    refine hsep2.imp_of_mem ?_
    intro a b ha hb h
    apply h
    rw [agrupar_chave (t :: r) p hp a ha, agrupar_chave (t :: r) p hp b hb]

theorem ratFloor_eq (q : ℚ) : (Rat.floor q : ℤ) = ⌊q⌋ := rfl

/-- C3. `_deduplicate_transitos` never increases the event count, returns a
list sorted ascending by instant, keeps no two events of the same
`(planeta1, planeta2, aspect-or-kind)` group within the cluster window
(any two kept same-group events are more than `janela` apart), keeps from
each sub-cluster exactly a minimum-residual member, and on the spec's
concrete scenario (same pair and aspect, instants `0.05` day apart,
residuals `0.02` and `0.01`) keeps exactly the `0.01`-residual event. -/
theorem deduplicate_propriedades (janela : ℚ) (ts : List Transito) :
    (deduplicate_transitos janela ts).length ≤ ts.length ∧
    (deduplicate_transitos janela ts).Pairwise
      (fun a b => a.jd_exato ≤ b.jd_exato) ∧
    (deduplicate_transitos janela ts).Pairwise (fun a b => chave a = chave b →
      janela < b.jd_exato - a.jd_exato ∨ janela < a.jd_exato - b.jd_exato) ∧
    (∀ p ∈ agrupar ts, ∀ c ∈ subclusters janela (ordenarJd p.2),
      ∀ k ∈ escolherMelhor c, k ∈ c ∧ ∀ u ∈ c, k.orbe ≤ u.orbe) ∧
    deduplicate_transitos (3/20) [ev3a, ev3b] = [ev3b] := by
  refine ⟨(deduplicate_subperm janela ts).length_le, deduplicate_sorted janela ts,
    deduplicate_pairwise_chave janela ts, ?_, ?_⟩
  · intro p _ c _ k hk
    cases c with
    | nil => simp [escolherMelhor] at hk
    | cons t resto =>
      simp only [escolherMelhor, List.mem_singleton] at hk
      subst hk
      exact ⟨minOrbe_mem t resto, minOrbe_le t resto⟩
  · norm_num [deduplicate_transitos, agrupar, insereGrupo, chave, asp_key, pyround1,
      dedupeGrupo, subclusters, clusterLoop, escolherMelhor, minOrbe, ordenarJd,
      ordenarPor, insOrdenado, ev3a, ev3b, ratFloor_eq]

/-- Witness for C3 at a concrete input: on `[ev3a, ev3b]` the inner
minimum-selection hypothesis chain is discharged concretely. -/
theorem deduplicate_propriedades_witness :
    ev3b ∈ [ev3a, ev3b] ∧ ∀ u ∈ [ev3a, ev3b], ev3b.orbe ≤ u.orbe := by
  have h := (deduplicate_propriedades (3/20) [ev3a, ev3b]).2.2.2.1
    (chave ev3a, [ev3a, ev3b])
    (by norm_num [agrupar, insereGrupo, chave, asp_key, pyround1, ev3a, ev3b,
      ratFloor_eq])
    [ev3a, ev3b]
    (by norm_num [subclusters, clusterLoop, ordenarJd, ordenarPor, insOrdenado,
      ev3a, ev3b])
    ev3b
    (by norm_num [escolherMelhor, minOrbe, ev3a, ev3b])
  exact h

/-- C4 counterexample: deduplication is not idempotent.  With
`X = [evA, evB, evC]` (where `evA` and `evC` share the instant `10` but
belong to different pair groups), the first pass returns
`[evB, evA, evC]` and the second pass returns `[evB, evC, evA]`: re-running
deduplication reorders the two equal-instant events, because the second
pass rebuilds the groups in a different first-occurrence order and the
final stable sort keeps that order on ties. -/
theorem deduplicate_nao_idempotente :
    deduplicate_transitos (3/20) (deduplicate_transitos (3/20) [evA, evB, evC])
      ≠ deduplicate_transitos (3/20) [evA, evB, evC] := by
  have h1 : deduplicate_transitos (3/20) [evA, evB, evC] = [evB, evA, evC] := by
    norm_num [deduplicate_transitos, agrupar, insereGrupo, chave, asp_key, pyround1,
      dedupeGrupo, subclusters, clusterLoop, escolherMelhor, minOrbe, ordenarJd,
      ordenarPor, insOrdenado, evA, evB, evC, ratFloor_eq]
  have h2 : deduplicate_transitos (3/20) [evB, evA, evC] = [evB, evC, evA] := by
    norm_num [deduplicate_transitos, agrupar, insereGrupo, chave, asp_key, pyround1,
      dedupeGrupo, subclusters, clusterLoop, escolherMelhor, minOrbe, ordenarJd,
      ordenarPor, insOrdenado, evA, evB, evC, ratFloor_eq]
  rw [h1, h2]
  simp [evA, evB, evC]

/-- C4 (amended). Deduplication is idempotent on every event list whose
instants are pairwise distinct: `dedupe(dedupe(X)) = dedupe(X)`.  (In
general the second application keeps exactly the same events; only the
relative order of distinct events sharing one instant can change, as the
counterexample shows.) -/
theorem deduplicate_idempotente_distintos (ts : List Transito)
    (h : ts.Pairwise (fun a b => a.jd_exato ≠ b.jd_exato)) :
    deduplicate_transitos (3/20) (deduplicate_transitos (3/20) ts)
      = deduplicate_transitos (3/20) ts := by
  have hsubY := deduplicate_subperm (3/20) ts
  have hYne : (deduplicate_transitos (3/20) ts).Pairwise
      (fun a b => a.jd_exato ≠ b.jd_exato) := by
    obtain ⟨m, hmp, hms⟩ := hsubY
    exact (hmp.pairwise_iff (fun hx => hx.symm)).mp (List.Pairwise.sublist hms h)
  have hperm : (deduplicate_transitos (3/20) (deduplicate_transitos (3/20) ts)).Perm
      (deduplicate_transitos (3/20) ts) :=
    deduplicate_perm_of_sep (3/20) (by norm_num) _
      (deduplicate_pairwise_chave (3/20) ts)
  have hYne2 : (deduplicate_transitos (3/20) (deduplicate_transitos (3/20) ts)).Pairwise
      (fun a b => a.jd_exato ≠ b.jd_exato) := by
    obtain ⟨m, hmp, hms⟩ := deduplicate_subperm (3/20) (deduplicate_transitos (3/20) ts)
    exact (hmp.pairwise_iff (fun hx => hx.symm)).mp (List.Pairwise.sublist hms hYne)
  have hlt1 : (deduplicate_transitos (3/20) ts).Pairwise
      (fun a b => a.jd_exato < b.jd_exato) :=
    ((deduplicate_sorted (3/20) ts).and hYne).imp
      (fun hx => lt_of_le_of_ne hx.1 hx.2)
  have hlt2 : (deduplicate_transitos (3/20) (deduplicate_transitos (3/20) ts)).Pairwise
      (fun a b => a.jd_exato < b.jd_exato) :=
    ((deduplicate_sorted (3/20) _).and hYne2).imp
      (fun hx => lt_of_le_of_ne hx.1 hx.2)
  haveI : IsAntisymm Transito (fun a b => a.jd_exato < b.jd_exato) :=
    ⟨fun a b h1 h2 => absurd h1 (not_lt.mpr h2.le)⟩
  exact List.eq_of_perm_of_sorted hperm hlt2 hlt1

/-- Witness for C4 (amended) at a concrete input with distinct instants. -/
theorem deduplicate_idempotente_distintos_witness :
    deduplicate_transitos (3/20) (deduplicate_transitos (3/20) [evB, evA])
      = deduplicate_transitos (3/20) [evB, evA] :=
  deduplicate_idempotente_distintos [evB, evA]
    (by norm_num [evA, evB, List.pairwise_cons])

-- ------------------------------------------------------------------ --
-- `buscar_mudanca_signo_exata`.
-- ------------------------------------------------------------------ --

theorem buscar_mudanca_go_mem (eph : ℚ → Int → ℚ) (planeta signo_saida : Int) :
    ∀ (n : Nat) (a b : ℚ), a ≤ b →
      a ≤ buscar_mudanca_go eph planeta signo_saida n a b ∧
      buscar_mudanca_go eph planeta signo_saida n a b ≤ b := by
  intro n
  induction n with
  | zero =>
    intro a b hab
    constructor
    · show a ≤ (a + b) / 2
      linarith
    · show (a + b) / 2 ≤ b
      linarith
  | succ n ih =>
    intro a b hab
    have hm1 : a ≤ (a + b) / 2 := by linarith
    have hm2 : (a + b) / 2 ≤ b := by linarith
    simp only [buscar_mudanca_go]
    by_cases hs : signo_atual eph planeta ((a + b) / 2) = signo_saida
    · rw [if_pos hs]
      dsimp only
      by_cases hw : |b - (a + b) / 2| < 1/1000000000000
      · rw [if_pos hw]
        exact ⟨hm1, hm2⟩
      · rw [if_neg hw]
        have h2 := ih ((a + b) / 2) b hm2
        exact ⟨hm1.trans h2.1, h2.2⟩
    · rw [if_neg hs]
      dsimp only
      by_cases hw : |(a + b) / 2 - a| < 1/1000000000000
      · rw [if_pos hw]
        exact ⟨hm1, hm2⟩
      · rw [if_neg hw]
        have h2 := ih a ((a + b) / 2) hm1
        exact ⟨h2.1, h2.2.trans hm2⟩

theorem buscar_mudanca_go_ext (eph eph2 : ℚ → Int → ℚ) (planeta signo_saida : Int)
    (hsig : ∀ t, signo_atual eph planeta t = signo_atual eph2 planeta t) :
    ∀ (n : Nat) (a b : ℚ),
      buscar_mudanca_go eph planeta signo_saida n a b
        = buscar_mudanca_go eph2 planeta signo_saida n a b := by
  intro n
  induction n with
  | zero => intro a b; rfl
  | succ n ih =>
    intro a b
    simp only [buscar_mudanca_go, hsig, ih]

theorem buscar_mudanca_go_succ (eph : ℚ → Int → ℚ) (planeta signo_saida : Int)
    (n : Nat) (jd1 jd2 : ℚ) :
    buscar_mudanca_go eph planeta signo_saida (n + 1) jd1 jd2 =
      (if signo_atual eph planeta ((jd1 + jd2) / 2) = signo_saida then
        if |jd2 - (jd1 + jd2) / 2| < 1/1000000000000 then (jd1 + jd2) / 2
        else buscar_mudanca_go eph planeta signo_saida n ((jd1 + jd2) / 2) jd2
      else
        if |(jd1 + jd2) / 2 - jd1| < 1/1000000000000 then (jd1 + jd2) / 2
        else buscar_mudanca_go eph planeta signo_saida n jd1 ((jd1 + jd2) / 2)) := by
  by_cases hs : signo_atual eph planeta ((jd1 + jd2) / 2) = signo_saida <;>
    simp [buscar_mudanca_go, hs]

/-- C5. `buscar_mudanca_signo_exata` is, by construction, a 20-iteration
budgeted bisection; its result always lies inside the initial bracket
`[jd1, jd2]`; the search depends on the ephemeris only through the discrete
integer sign predicate `signo_atual`; as soon as the updated bracket width
`(jd2 - jd1)/2` is below the numerical floor `1e-12` the current midpoint is
returned; and the sign index is `floor(longitude/30) mod 12` of the
`% 360`-reduced longitude. -/
theorem buscar_mudanca_signo_propriedades (eph : ℚ → Int → ℚ) (jd1 jd2 : ℚ)
    (planeta signo_saida : Int) (h : jd1 ≤ jd2) :
    (jd1 ≤ buscar_mudanca_signo_exata eph jd1 jd2 planeta signo_saida ∧
     buscar_mudanca_signo_exata eph jd1 jd2 planeta signo_saida ≤ jd2) ∧
    (∀ eph2 : ℚ → Int → ℚ,
      (∀ t, signo_atual eph planeta t = signo_atual eph2 planeta t) →
      buscar_mudanca_signo_exata eph jd1 jd2 planeta signo_saida
        = buscar_mudanca_signo_exata eph2 jd1 jd2 planeta signo_saida) ∧
    ((jd2 - jd1) / 2 < 1/1000000000000 →
      buscar_mudanca_signo_exata eph jd1 jd2 planeta signo_saida = (jd1 + jd2) / 2) ∧
    (∀ t, signo_atual eph planeta t = ⌊pymod (eph t planeta) 360 / 30⌋ % 12) := by
  refine ⟨buscar_mudanca_go_mem eph planeta signo_saida 20 jd1 jd2 h,
    fun eph2 hsig => buscar_mudanca_go_ext eph eph2 planeta signo_saida hsig 20 jd1 jd2,
    ?_, ?_⟩
  · intro hw
    show buscar_mudanca_go eph planeta signo_saida 20 jd1 jd2 = (jd1 + jd2) / 2
    rw [show (20:ℕ) = 19 + 1 by norm_num, buscar_mudanca_go_succ]
    by_cases hs : signo_atual eph planeta ((jd1 + jd2) / 2) = signo_saida
    · rw [if_pos hs, if_pos (by rw [abs_of_nonneg (by linarith)]; linarith)]
    · rw [if_neg hs, if_pos (by rw [abs_of_nonneg (by linarith)]; linarith)]
  · intro t
    have h0 : 0 ≤ pymod (eph t planeta) 360 := pymod_nonneg _ 360 (by norm_num)
    have h1 : 0 ≤ pymod (eph t planeta) 360 / 30 := by positivity
    show pytrunc (calcular_posicao_planeta eph t planeta / 30) % 12 = _
    rw [calcular_posicao_planeta, pytrunc_eq_floor _ h1]

/-- Witness for C5 at a concrete input. -/
theorem buscar_mudanca_signo_propriedades_witness :
    0 ≤ buscar_mudanca_signo_exata eph_zero 0 1 1 0 ∧
    buscar_mudanca_signo_exata eph_zero 0 1 1 0 ≤ 1 :=
  (buscar_mudanca_signo_propriedades eph_zero 0 1 1 0 (by norm_num)).1

-- ------------------------------------------------------------------ --
-- `calcular_voc_lua`.
-- ------------------------------------------------------------------ --

theorem mem_aspectos_lua {ts : List Transito} {jd : ℚ} {t : Transito} :
    t ∈ aspectos_lua ts jd ↔ t ∈ ts ∧ envolveLua t = true ∧ t.jd_exato < jd := by
  simp [aspectos_lua, List.mem_filter, Bool.and_eq_true, decide_eq_true_eq, and_assoc]

theorem calcular_voc_lua_loop_len (eph : ℚ → Int → ℚ) (ts : List Transito) :
    ∀ l : List EventoAstral,
      (calcular_voc_lua_loop eph ts l).length
        = (l.filter (fun e => !(aspectos_lua ts e.jd_exato).isEmpty)).length := by
  intro l
  induction l with
  | nil => rfl
  | cons e resto ih =>
    simp only [calcular_voc_lua_loop]
    cases hcase : aspectos_lua ts e.jd_exato with
    | nil => simp [List.filter_cons, hcase, ih]
    | cons t ts2 => simp [List.filter_cons, hcase, ih]

theorem calcular_voc_lua_loop_spec (eph : ℚ → Int → ℚ) (ts : List Transito) :
    ∀ l : List EventoAstral, ∀ p ∈ calcular_voc_lua_loop eph ts l,
      ∃ e ∈ l, p.jd_fim = e.jd_exato ∧
        ∃ t ∈ ts, envolveLua t = true ∧ t.jd_exato < e.jd_exato ∧
          p.jd_inicio = t.jd_exato + 1/86400 ∧
          ∀ u ∈ ts, envolveLua u = true → u.jd_exato < e.jd_exato →
            u.jd_exato ≤ t.jd_exato := by
  intro l
  induction l with
  | nil => intro p hp; simp [calcular_voc_lua_loop] at hp
  | cons e resto ih =>
    intro p hp
    simp only [calcular_voc_lua_loop] at hp
    cases hcase : aspectos_lua ts e.jd_exato with
    | nil =>
      rw [hcase] at hp
      obtain ⟨e2, he2, hrest⟩ := ih p hp
      exact ⟨e2, List.mem_cons_of_mem _ he2, hrest⟩
    | cons t ts2 =>
      rw [hcase] at hp
      rcases List.mem_cons.mp hp with h1 | h1
      · have hmax := maxJd_mem t ts2
        rw [← hcase] at hmax
        have hmem := mem_aspectos_lua.mp hmax
        refine ⟨e, List.mem_cons_self _ _, by rw [h1], maxJd t ts2, hmem.1,
          hmem.2.1, hmem.2.2, by rw [h1], ?_⟩
        intro u hu henv hlt
        have hu2 : u ∈ aspectos_lua ts e.jd_exato :=
          mem_aspectos_lua.mpr ⟨hu, henv, hlt⟩
        rw [hcase] at hu2
        exact maxJd_ge t ts2 u hu2
      · obtain ⟨e2, he2, hrest⟩ := ih p h1
        exact ⟨e2, List.mem_cons_of_mem _ he2, hrest⟩

/-- C6. `calcular_voc_lua` emits exactly one void period per Moon sign
ingress that has at least one strictly earlier Moon transit (and none for
the others); every emitted period ends at its ingress instant and starts one
second (`1/86400` day) after the instant of the latest Moon transit strictly
before that ingress. -/
theorem calcular_voc_lua_caracterizacao (eph : ℚ → Int → ℚ) (ts : List Transito)
    (ms : List EventoAstral) :
    (calcular_voc_lua eph ts ms).length =
      ((ms.filter (fun e => contemSub "LUA" e.descricao)).filter
        (fun e => !(aspectos_lua ts e.jd_exato).isEmpty)).length ∧
    ∀ p ∈ calcular_voc_lua eph ts ms,
      ∃ e ∈ ms.filter (fun e => contemSub "LUA" e.descricao),
        p.jd_fim = e.jd_exato ∧
        ∃ t ∈ ts, envolveLua t = true ∧ t.jd_exato < e.jd_exato ∧
          p.jd_inicio = t.jd_exato + 1/86400 ∧
          ∀ u ∈ ts, envolveLua u = true → u.jd_exato < e.jd_exato →
            u.jd_exato ≤ t.jd_exato :=
  ⟨calcular_voc_lua_loop_len eph ts _, calcular_voc_lua_loop_spec eph ts _⟩

/-- Witness for C6 at a concrete input: one ingress with one prior Moon
transit yields exactly one void period. -/
theorem calcular_voc_lua_caracterizacao_witness :
    (calcular_voc_lua eph_zero [trD7] [evC7]).length = 1 := by
  rw [(calcular_voc_lua_caracterizacao eph_zero [trD7] [evC7]).1]
  have hfil : contemSub "LUA" "LUA entra em AR" = true := by decide
  norm_num [List.filter_cons, hfil, aspectos_lua, envolveLua, trD7, evC7]

/-- C7 counterexample: the invariant "end never precedes start" fails.  With
the single Moon transit `trC7` (half a second before the ingress) and the
Moon ingress `evC7` at instant 10, the emitted void period has
`jd_fim = 10 < jd_inicio = 10 + 1/172800`. -/
theorem calcular_voc_lua_fim_antes_inicio :
    (calcular_voc_lua eph_zero [trC7] [evC7]).map
      (fun p => decide (p.jd_fim < p.jd_inicio)) = [true] := by
  have hfil : contemSub "LUA" "LUA entra em AR" = true := by decide
  have hasp : aspectos_lua [trC7] evC7.jd_exato = [trC7] := by
    norm_num [aspectos_lua, List.filter_cons, envolveLua, trC7, evC7]
  simp only [calcular_voc_lua, List.filter_cons, hfil, if_true, List.filter_nil,
    calcular_voc_lua_loop, hasp]
  norm_num [maxJd, trC7, evC7]

/-- C7 (amended). Every emitted void period satisfies the weaker bound
`jd_inicio - 1/86400 < jd_fim` (the end can precede the start, but by
strictly less than the one second added to the last aspect's instant); the
claimed invariant `jd_inicio ≤ jd_fim` holds whenever every Moon transit
preceding an ingress precedes it by at least one second. -/
theorem calcular_voc_lua_fim_ge (eph : ℚ → Int → ℚ) (ts : List Transito)
    (ms : List EventoAstral) :
    (∀ p ∈ calcular_voc_lua eph ts ms, p.jd_inicio - 1/86400 < p.jd_fim) ∧
    ((∀ t ∈ ts, envolveLua t = true →
        ∀ e ∈ ms.filter (fun e => contemSub "LUA" e.descricao),
          t.jd_exato < e.jd_exato → t.jd_exato + 1/86400 ≤ e.jd_exato) →
      ∀ p ∈ calcular_voc_lua eph ts ms, p.jd_inicio ≤ p.jd_fim) := by
  constructor
  · intro p hp
    obtain ⟨e, _, hfim, t, _, _, hlt, hini, _⟩ :=
      calcular_voc_lua_loop_spec eph ts _ p hp
    rw [hfim, hini]
    linarith
  · intro hsep p hp
    obtain ⟨e, he, hfim, t, ht, henv, hlt, hini, _⟩ :=
      calcular_voc_lua_loop_spec eph ts _ p hp
    rw [hfim, hini]
    exact hsep t ht henv e he hlt

/-- Witness for C7 (amended) at a concrete input: with the prior transit a
full five days before the ingress, the emitted period satisfies both
bounds. -/
theorem calcular_voc_lua_fim_ge_witness :
    (calcular_voc_lua eph_zero [trD7] [evC7]).map
      (fun p => decide (p.jd_inicio ≤ p.jd_fim)) = [true] := by
  have h := (calcular_voc_lua_fim_ge eph_zero [trD7] [evC7]).2 ?hsep
  case hsep =>
    intro t ht henv e he hlt
    have hfil : contemSub "LUA" "LUA entra em AR" = true := by decide
    have hfil2 : contemSub "LUA" evC7.descricao = true := hfil
    simp only [List.mem_singleton] at ht
    simp only [List.filter_cons, hfil2, if_true, List.filter_nil,
      List.mem_singleton] at he
    subst ht
    subst he
    norm_num [trD7, evC7]
  have hfil : contemSub "LUA" "LUA entra em AR" = true := by decide
  have hasp : aspectos_lua [trD7] evC7.jd_exato = [trD7] := by
    norm_num [aspectos_lua, List.filter_cons, envolveLua, trD7, evC7]
  simp only [calcular_voc_lua, List.filter_cons, hfil, if_true, List.filter_nil,
    calcular_voc_lua_loop, hasp] at h ⊢
  simp only [List.map_cons, List.map_nil, List.cons.injEq, and_true]
  rw [decide_eq_true_eq]
  exact h _ (List.mem_cons_self _ _)

-- ------------------------------------------------------------------ --
-- `buscar_transito_exato`: coarse phase and bisection phase.
-- ------------------------------------------------------------------ --

theorem bisseccoes_succ (f : ℚ → ℚ) (n : Nat) (jd1 jd2 : ℚ) (melhor : ℚ × ℚ) :
    bisseccoes f (n + 1) jd1 jd2 melhor =
      (if |f ((jd1 + jd2) / 2)| ≤ 1/1000 then
        Sum.inl ((jd1 + jd2) / 2, |f ((jd1 + jd2) / 2)|)
      else if |f jd1| < |f jd2| then
        bisseccoes f n jd1 ((jd1 + jd2) / 2)
          (if |f ((jd1 + jd2) / 2)| < melhor.2
            then ((jd1 + jd2) / 2, |f ((jd1 + jd2) / 2)|) else melhor)
      else
        bisseccoes f n ((jd1 + jd2) / 2) jd2
          (if |f ((jd1 + jd2) / 2)| < melhor.2
            then ((jd1 + jd2) / 2, |f ((jd1 + jd2) / 2)|) else melhor)) := rfl

theorem bisseccoes_inl (f : ℚ → ℚ) (lo hi : ℚ) :
    ∀ (n : Nat) (a b : ℚ) (melhor r : ℚ × ℚ),
      lo ≤ a → a ≤ hi → lo ≤ b → b ≤ hi →
      bisseccoes f n a b melhor = Sum.inl r →
      lo ≤ r.1 ∧ r.1 ≤ hi ∧ r.2 = |f r.1| ∧ r.2 ≤ 1/1000 := by
  intro n
  induction n with
  | zero =>
    intro a b melhor r _ _ _ _ h
    simp [bisseccoes] at h
  | succ n ih =>
    intro a b melhor r ha1 ha2 hb1 hb2 h
    rw [bisseccoes_succ] at h
    have hm1 : lo ≤ (a + b) / 2 := by linarith
    have hm2 : (a + b) / 2 ≤ hi := by linarith
    by_cases he : |f ((a + b) / 2)| ≤ 1/1000
    · rw [if_pos he] at h
      simp only [Sum.inl.injEq] at h
      rw [← h]
      exact ⟨hm1, hm2, rfl, he⟩
    · rw [if_neg he] at h
      by_cases hc : |f a| < |f b|
      · rw [if_pos hc] at h
        exact ih a ((a + b) / 2) _ r ha1 ha2 hm1 hm2 h
      · rw [if_neg hc] at h
        exact ih ((a + b) / 2) b _ r hm1 hm2 hb1 hb2 h

theorem bisseccoes_inr (f : ℚ → ℚ) (lo hi : ℚ) :
    ∀ (n : Nat) (a b : ℚ) (melhor m : ℚ × ℚ),
      lo ≤ a → a ≤ hi → lo ≤ b → b ≤ hi →
      (melhor = (0, 999) ∨ (lo ≤ melhor.1 ∧ melhor.1 ≤ hi ∧ melhor.2 = |f melhor.1|)) →
      bisseccoes f n a b melhor = Sum.inr m →
      m.2 ≤ melhor.2 ∧
        (m = (0, 999) ∨ (lo ≤ m.1 ∧ m.1 ≤ hi ∧ m.2 = |f m.1|)) := by
  intro n
  induction n with
  | zero =>
    intro a b melhor m _ _ _ _ hok h
    simp only [bisseccoes, Sum.inr.injEq] at h
    rw [← h]
    exact ⟨le_refl _, hok⟩
  | succ n ih =>
    intro a b melhor m ha1 ha2 hb1 hb2 hok h
    rw [bisseccoes_succ] at h
    have hm1 : lo ≤ (a + b) / 2 := by linarith
    have hm2 : (a + b) / 2 ≤ hi := by linarith
    by_cases he : |f ((a + b) / 2)| ≤ 1/1000
    · rw [if_pos he] at h
      exact absurd h (by simp)
    · rw [if_neg he] at h
      have hok2 : ((if |f ((a + b) / 2)| < melhor.2
            then ((a + b) / 2, |f ((a + b) / 2)|) else melhor) = (0, 999) ∨
          (lo ≤ (if |f ((a + b) / 2)| < melhor.2
            then ((a + b) / 2, |f ((a + b) / 2)|) else melhor).1 ∧
           (if |f ((a + b) / 2)| < melhor.2
            then ((a + b) / 2, |f ((a + b) / 2)|) else melhor).1 ≤ hi ∧
           (if |f ((a + b) / 2)| < melhor.2
            then ((a + b) / 2, |f ((a + b) / 2)|) else melhor).2 =
             |f (if |f ((a + b) / 2)| < melhor.2
            then ((a + b) / 2, |f ((a + b) / 2)|) else melhor).1|)) ∧
          (if |f ((a + b) / 2)| < melhor.2
            then ((a + b) / 2, |f ((a + b) / 2)|) else melhor).2 ≤ melhor.2 := by
        by_cases hlt : |f ((a + b) / 2)| < melhor.2
        · rw [if_pos hlt]
          exact ⟨Or.inr ⟨hm1, hm2, rfl⟩, hlt.le⟩
        · rw [if_neg hlt]
          exact ⟨hok, le_refl _⟩
      by_cases hc : |f a| < |f b|
      · rw [if_pos hc] at h
        have h2 := ih a ((a + b) / 2) _ m ha1 ha2 hm1 hm2 hok2.1 h
        exact ⟨h2.1.trans hok2.2, h2.2⟩
      · rw [if_neg hc] at h
        have h2 := ih ((a + b) / 2) b _ m hm1 hm2 hb1 hb2 hok2.1 h
        exact ⟨h2.1.trans hok2.2, h2.2⟩

theorem amostras24_mem (f : ℚ → ℚ) (ji jf : ℚ) (h : ji ≤ jf) :
    ∀ s ∈ amostras24 f ji jf, (ji ≤ s.1 ∧ s.1 ≤ jf) ∧ s.2 = |f s.1| := by
  intro s hs
  simp only [amostras24, List.mem_map, List.mem_range] at hs
  obtain ⟨i, hi, rfl⟩ := hs
  have hd : (0:ℚ) ≤ (jf - ji) / 23 := by
    apply div_nonneg (by linarith) (by norm_num)
  have hiq : (i : ℚ) ≤ 23 := by
    have h23 : i ≤ 23 := by omega
    exact_mod_cast h23
  refine ⟨⟨?_, ?_⟩, rfl⟩
  · have h0 : 0 ≤ (i:ℚ) * ((jf - ji) / 23) := mul_nonneg (Nat.cast_nonneg i) hd
    dsimp only
    linarith
  · have h23 : (i:ℚ) * ((jf - ji) / 23) ≤ 23 * ((jf - ji) / 23) :=
      mul_le_mul_of_nonneg_right hiq hd
    have heq : (23:ℚ) * ((jf - ji) / 23) = jf - ji := by field_simp
    dsimp only
    linarith

theorem amostras24_length (f : ℚ → ℚ) (ji jf : ℚ) :
    (amostras24 f ji jf).length = 24 := by
  rw [amostras24, List.length_map, List.length_range]

theorem melhorAmostra_spec (l : List (ℚ × ℚ)) :
    (melhorAmostra l = (0, 999) ∨ ∃ s ∈ l, melhorAmostra l = s) ∧
    (melhorAmostra l).2 ≤ 999 ∧ ∀ s ∈ l, (melhorAmostra l).2 ≤ s.2 := by
  have aux : ∀ (l : List (ℚ × ℚ)) (init : ℚ × ℚ),
      (l.foldl (fun melhor s => if s.2 < melhor.2 then (s.1, s.2) else melhor) init = init
        ∨ ∃ s ∈ l,
            l.foldl (fun melhor s => if s.2 < melhor.2 then (s.1, s.2) else melhor) init = s) ∧
      (l.foldl (fun melhor s => if s.2 < melhor.2 then (s.1, s.2) else melhor) init).2
          ≤ init.2 ∧
      ∀ s ∈ l,
        (l.foldl (fun melhor s => if s.2 < melhor.2 then (s.1, s.2) else melhor) init).2
          ≤ s.2 := by
    intro l
    induction l with
    | nil => intro init; exact ⟨Or.inl rfl, le_refl _, by simp⟩
    | cons s l ih =>
      intro init
      rw [List.foldl_cons]
      obtain ⟨hcases, hle, hall⟩ := ih (if s.2 < init.2 then (s.1, s.2) else init)
      refine ⟨?_, ?_, ?_⟩
      · rcases hcases with h | ⟨u, hu, hu2⟩
        · by_cases hc : s.2 < init.2
          · right
            refine ⟨s, List.mem_cons_self _ _, ?_⟩
            rw [h, if_pos hc]
          · left
            rw [h, if_neg hc]
        · right
          exact ⟨u, List.mem_cons_of_mem _ hu, hu2⟩
      · refine hle.trans ?_
        by_cases hc : s.2 < init.2
        · rw [if_pos hc]
          exact hc.le
        · rw [if_neg hc]
      · intro u hu
        rcases List.mem_cons.mp hu with h | h
        · subst h
          refine hle.trans ?_
          by_cases hc : u.2 < init.2
          · rw [if_pos hc]
          · rw [if_neg hc]
            exact le_of_not_lt hc
        · exact hall u h
  have h := aux l (0, 999)
  refine ⟨?_, ?_, h.2.2⟩
  · rcases h.1 with h1 | h1
    · exact Or.inl h1
    · exact Or.inr h1
  · exact h.2.1

theorem localMinBracket_mem : ∀ (l : List (ℚ × ℚ)) (p : ℚ × ℚ),
    localMinBracket l = some p →
    (∃ s ∈ l, s.1 = p.1) ∧ ∃ s ∈ l, s.1 = p.2 := by
  intro l
  induction l with
  | nil => intro p h; simp [localMinBracket] at h
  | cons x l1 ih =>
    cases l1 with
    | nil => intro p h; simp [localMinBracket] at h
    | cons y l2 =>
      cases l2 with
      | nil => intro p h; simp [localMinBracket] at h
      | cons z resto =>
        intro p h
        simp only [localMinBracket] at h
        by_cases hc : x.2 > y.2 ∧ y.2 < z.2
        · rw [if_pos hc] at h
          simp only [Option.some.injEq] at h
          rw [← h]
          exact ⟨⟨x, List.mem_cons_self _ _, rfl⟩,
            ⟨z, by simp, rfl⟩⟩
        · rw [if_neg hc] at h
          obtain ⟨⟨s1, hs1, he1⟩, ⟨s2, hs2, he2⟩⟩ := ih p h
          exact ⟨⟨s1, List.mem_cons_of_mem _ hs1, he1⟩,
            ⟨s2, List.mem_cons_of_mem _ hs2, he2⟩⟩

theorem findIdx_aux_lt {α : Type} {p : α → Bool} :
    ∀ (l : List α) (i j : Nat), List.findIdx? p l i = some j → j < i + l.length := by
  intro l
  induction l with
  | nil => intro i j h; simp [List.findIdx?] at h
  | cons a l ih =>
    intro i j h
    simp only [List.findIdx?] at h
    by_cases hc : p a
    · rw [if_pos hc] at h
      simp only [Option.some.injEq] at h
      rw [← h]
      simp
    · rw [if_neg hc] at h
      have h2 := ih (i + 1) j h
      simp only [List.length_cons]
      omega

theorem fallbackBracket_mem (l : List (ℚ × ℚ)) (mjd : ℚ) (h24 : l.length = 24) :
    (∃ s ∈ l, s.1 = (fallbackBracket l mjd).1) ∧
    (∃ s ∈ l, s.1 = (fallbackBracket l mjd).2) := by
  have hidx : ((l.findIdx? (fun s => s.1 == mjd)).getD 0) - 1 < l.length ∧
      min 23 (((l.findIdx? (fun s => s.1 == mjd)).getD 0) + 1) < l.length := by
    rw [h24]
    cases hf : l.findIdx? (fun s => s.1 == mjd) with
    | none => simp
    | some j =>
      have h2 := findIdx_aux_lt l 0 j hf
      rw [h24] at h2
      simp only [Option.getD_some]
      omega
  constructor
  · refine ⟨l.getD (((l.findIdx? (fun s => s.1 == mjd)).getD 0) - 1) (0, 0), ?_, rfl⟩
    rw [List.getD_eq_getElem?_getD, List.getElem?_eq_getElem hidx.1, Option.getD_some]
    exact List.getElem_mem hidx.1
  · refine ⟨l.getD (min 23 (((l.findIdx? (fun s => s.1 == mjd)).getD 0) + 1)) (0, 0),
      ?_, rfl⟩
    rw [List.getD_eq_getElem?_getD, List.getElem?_eq_getElem hidx.2, Option.getD_some]
    exact List.getElem_mem hidx.2

theorem buscar_transito_exato_eq (eph : ℚ → Int → ℚ) (jd_inicio jd_fim : ℚ)
    (planeta1 : Int) (planeta2 : Int ⊕ ℚ) (angulo_aspecto orbe : ℚ) :
    buscar_transito_exato eph jd_inicio jd_fim planeta1 planeta2 angulo_aspecto orbe =
      (if (melhorAmostra (amostras24 (calcular_orbe_atual eph planeta1 planeta2
            angulo_aspecto) jd_inicio jd_fim)).2 > orbe * (3/2) then (0, 999)
       else
        match bisseccoes (calcular_orbe_atual eph planeta1 planeta2 angulo_aspecto) 10
            (if ((localMinBracket (amostras24 (calcular_orbe_atual eph planeta1 planeta2
                  angulo_aspecto) jd_inicio jd_fim)).getD (0, 0)).1 = 0
             then fallbackBracket (amostras24 (calcular_orbe_atual eph planeta1 planeta2
                  angulo_aspecto) jd_inicio jd_fim)
                (melhorAmostra (amostras24 (calcular_orbe_atual eph planeta1 planeta2
                  angulo_aspecto) jd_inicio jd_fim)).1
             else (localMinBracket (amostras24 (calcular_orbe_atual eph planeta1 planeta2
                  angulo_aspecto) jd_inicio jd_fim)).getD (0, 0)).1
            (if ((localMinBracket (amostras24 (calcular_orbe_atual eph planeta1 planeta2
                  angulo_aspecto) jd_inicio jd_fim)).getD (0, 0)).1 = 0
             then fallbackBracket (amostras24 (calcular_orbe_atual eph planeta1 planeta2
                  angulo_aspecto) jd_inicio jd_fim)
                (melhorAmostra (amostras24 (calcular_orbe_atual eph planeta1 planeta2
                  angulo_aspecto) jd_inicio jd_fim)).1
             else (localMinBracket (amostras24 (calcular_orbe_atual eph planeta1 planeta2
                  angulo_aspecto) jd_inicio jd_fim)).getD (0, 0)).2
            (melhorAmostra (amostras24 (calcular_orbe_atual eph planeta1 planeta2
                  angulo_aspecto) jd_inicio jd_fim)) with
        | Sum.inl r => r
        | Sum.inr m => if m.2 ≤ orbe then m else (0, 999)) := rfl

theorem hf_zero : ∀ jd, calcular_orbe_atual eph_zero 0 (Sum.inl 1) 0 jd = 0 := by
  intro jd
  norm_num [calcular_orbe_atual, posicao_p2, calcular_posicao_planeta, pymod, eph_zero,
    angular_difference, ratFloor_eq]

theorem range24_eq : List.range 24 =
    [0,1,2,3,4,5,6,7,8,9,10,11,12,13,14,15,16,17,18,19,20,21,22,23] := by rfl

theorem amostras_zero_eval :
    amostras24 (calcular_orbe_atual eph_zero 0 (Sum.inl 1) 0) 0 (1/200) =
      [(0, 0), (1/4600, 0), (1/2300, 0), (3/4600, 0), (1/1150, 0), (1/920, 0),
       (3/2300, 0), (7/4600, 0), (1/575, 0), (9/4600, 0), (1/460, 0), (11/4600, 0),
       (3/1150, 0), (13/4600, 0), (7/2300, 0), (3/920, 0), (2/575, 0), (17/4600, 0),
       (9/2300, 0), (19/4600, 0), (1/230, 0), (21/4600, 0), (11/2300, 0), (1/200, 0)] := by
  norm_num [amostras24, hf_zero, range24_eq]

set_option maxRecDepth 8000 in
theorem melhor_zero_eval : melhorAmostra amostrasZeroLit = (0, 0) := by
  norm_num [amostrasZeroLit, melhorAmostra]

set_option maxRecDepth 8000 in
theorem locmin_zero_eval : localMinBracket amostrasZeroLit = none := by
  norm_num [amostrasZeroLit, localMinBracket]

set_option maxRecDepth 8000 in
theorem fallback_zero_eval : fallbackBracket amostrasZeroLit 0 = (0, 1/4600) := by
  norm_num [amostrasZeroLit, fallbackBracket, List.findIdx?, List.getD]

theorem buscar_zero_eval :
    buscar_transito_exato eph_zero 0 (1/200) 0 (Sum.inl 1) 0 8 = (1/9200, 0) := by
  have hbis : ∀ (n : ℕ) (a b : ℚ) (m : ℚ × ℚ),
      bisseccoes (calcular_orbe_atual eph_zero 0 (Sum.inl 1) 0) (n + 1) a b m
        = Sum.inl ((a + b) / 2, 0) := by
    intro n a b m
    rw [bisseccoes_succ, hf_zero, abs_zero]
    norm_num
  have hlit : amostras24 (calcular_orbe_atual eph_zero 0 (Sum.inl 1) 0) 0 (1/200)
      = amostrasZeroLit := by
    rw [amostras_zero_eval]; rfl
  rw [buscar_transito_exato_eq, hlit, melhor_zero_eval, locmin_zero_eval]
  norm_num [fallback_zero_eval]
  rw [show (10:ℕ) = 9 + 1 by norm_num, hbis]
  norm_num


-- ------------------------------------------------------------------ --
-- Concrete evaluation of the search on the V-shaped error `eph_c1`.
-- ------------------------------------------------------------------ --

theorem hf_c1_le (jd : ℚ) (h1 : -35 ≤ jd) (h2 : jd ≤ 5) :
    calcular_orbe_atual eph_c1 1 (Sum.inr 0) 0 jd = (1/250) * (5 - jd) + 7/10000 := by
  have habs : |jd - 5| = 5 - jd := by
    rw [abs_of_nonpos (by linarith)]; ring
  have hres : (0:ℚ) ≤ (1/250) * (5 - jd) + 7/10000 :=
    add_nonneg (mul_nonneg (by norm_num) (by linarith)) (by norm_num)
  have hfl : ⌊((1/250) * (5 - jd) + 7/10000) / 360⌋ = 0 := by
    rw [Int.floor_eq_zero_iff, Set.mem_Ico]
    refine ⟨div_nonneg hres (by norm_num), ?_⟩
    rw [div_lt_one (by norm_num : (0:ℚ) < 360)]
    linarith
  simp only [calcular_orbe_atual, posicao_p2, calcular_posicao_planeta, eph_c1,
    pymod, ratFloor_eq, angular_difference, habs]
  rw [hfl]
  norm_num
  rw [hfl]
  norm_num
  rw [abs_of_nonneg hres, if_pos (by linarith)]

theorem hf_c1_ge (jd : ℚ) (h1 : 5 ≤ jd) (h2 : jd ≤ 45) :
    calcular_orbe_atual eph_c1 1 (Sum.inr 0) 0 jd = (1/250) * (jd - 5) + 7/10000 := by
  have habs : |jd - 5| = jd - 5 := abs_of_nonneg (by linarith)
  have hres : (0:ℚ) ≤ (1/250) * (jd - 5) + 7/10000 :=
    add_nonneg (mul_nonneg (by norm_num) (by linarith)) (by norm_num)
  have hfl : ⌊((1/250) * (jd - 5) + 7/10000) / 360⌋ = 0 := by
    rw [Int.floor_eq_zero_iff, Set.mem_Ico]
    refine ⟨div_nonneg hres (by norm_num), ?_⟩
    rw [div_lt_one (by norm_num : (0:ℚ) < 360)]
    linarith
  simp only [calcular_orbe_atual, posicao_p2, calcular_posicao_planeta, eph_c1,
    pymod, ratFloor_eq, angular_difference, habs]
  rw [hfl]
  norm_num
  rw [hfl]
  norm_num
  rw [abs_of_nonneg hres, if_pos (by linarith)]

theorem amostras_c1_eval :
    amostras24 (calcular_orbe_atual eph_c1 1 (Sum.inr 0) 0) 0 23 = amostrasC1Lit := by
  norm_num [amostras24, range24_eq, amostrasC1Lit, hf_c1_le, hf_c1_ge, abs_of_nonneg]

set_option maxRecDepth 8000 in
theorem melhor_c1_eval : melhorAmostra amostrasC1Lit = (5, 7/10000) := by
  norm_num [amostrasC1Lit, melhorAmostra]

set_option maxRecDepth 8000 in
theorem locmin_c1_eval : localMinBracket amostrasC1Lit = some (4, 6) := by
  norm_num [amostrasC1Lit, localMinBracket]

theorem buscar_c1_eval :
    buscar_transito_exato eph_c1 0 23 1 (Sum.inr 0) 0 (1/2000) = (5, 7/10000) := by
  have h5 : calcular_orbe_atual eph_c1 1 (Sum.inr 0) 0 (((4:ℚ) + 6) / 2) = 7/10000 := by
    rw [hf_c1_ge (((4:ℚ) + 6) / 2) (by norm_num) (by norm_num)]
    norm_num
  rw [buscar_transito_exato_eq, amostras_c1_eval, melhor_c1_eval, locmin_c1_eval]
  norm_num
  rw [show (10:ℕ) = 9 + 1 by norm_num, bisseccoes_succ]
  rw [h5]
  rw [abs_of_nonneg (by norm_num : (0:ℚ) ≤ 7/10000)]
  norm_num

theorem bisseccoes_inl_residual (f : ℚ → ℚ) :
    ∀ (n : Nat) (a b : ℚ) (melhor r : ℚ × ℚ),
      bisseccoes f n a b melhor = Sum.inl r → r.2 = |f r.1| ∧ r.2 ≤ 1/1000 := by
  intro n
  induction n with
  | zero =>
    intro a b melhor r h
    simp [bisseccoes] at h
  | succ n ih =>
    intro a b melhor r h
    rw [bisseccoes_succ] at h
    by_cases he : |f ((a + b) / 2)| ≤ 1/1000
    · rw [if_pos he] at h
      simp only [Sum.inl.injEq] at h
      rw [← h]
      exact ⟨rfl, he⟩
    · rw [if_neg he] at h
      by_cases hc : |f a| < |f b|
      · rw [if_pos hc] at h
        exact ih _ _ _ r h
      · rw [if_neg hc] at h
        exact ih _ _ _ r h

/-- C1 counterexample: with the positive orb `0.0005` (legal but below the
`0.001` early-exit floor of the bisection) and the V-shaped signed error
`0.004*|jd - 5| + 0.0007` of `eph_c1`, the search returns the non-sentinel
result `(5, 0.0007)`: its residual `0.0007` exceeds the orb `0.0005`, so a
non-sentinel result does not always carry a residual at most the orb, and
the sentinel is not returned even though the best residual after bisection
exceeds the orb. -/
theorem buscar_transito_excede_orbe :
    (0 : ℚ) < 1/2000 ∧
      buscar_transito_exato eph_c1 0 23 1 (Sum.inr 0) 0 (1/2000) = (5, 7/10000) ∧
      (1/2000 : ℚ) < 7/10000 :=
  ⟨by norm_num, buscar_c1_eval, by norm_num⟩

-- ------------------------------------------------------------------ --
-- Concrete evaluation of the search on the linear error `eph_c8`.
-- ------------------------------------------------------------------ --

theorem hf_c8_le (jd : ℚ) (h1 : -29 ≤ jd) (h2 : jd ≤ 31/3) :
    calcular_orbe_atual eph_c8 1 (Sum.inr 0) 0 jd = 2 * (31/3 - jd) := by
  have habs : |jd - 31/3| = 31/3 - jd := by
    rw [abs_of_nonpos (by linarith)]; ring
  have hres : (0:ℚ) ≤ 2 * (31/3 - jd) := mul_nonneg (by norm_num) (by linarith)
  have hfl : ⌊(2 * (31/3 - jd)) / 360⌋ = 0 := by
    rw [Int.floor_eq_zero_iff, Set.mem_Ico]
    refine ⟨div_nonneg hres (by norm_num), ?_⟩
    rw [div_lt_one (by norm_num : (0:ℚ) < 360)]
    linarith
  simp only [calcular_orbe_atual, posicao_p2, calcular_posicao_planeta, eph_c8,
    pymod, ratFloor_eq, angular_difference, habs]
  rw [hfl]
  norm_num
  rw [hfl]
  norm_num
  rw [abs_of_nonneg hres, if_pos (by linarith)]

theorem hf_c8_ge (jd : ℚ) (h1 : 31/3 ≤ jd) (h2 : jd ≤ 100) :
    calcular_orbe_atual eph_c8 1 (Sum.inr 0) 0 jd = 2 * (jd - 31/3) := by
  have habs : |jd - 31/3| = jd - 31/3 := abs_of_nonneg (by linarith)
  have hres : (0:ℚ) ≤ 2 * (jd - 31/3) := mul_nonneg (by norm_num) (by linarith)
  have hfl : ⌊(2 * (jd - 31/3)) / 360⌋ = 0 := by
    rw [Int.floor_eq_zero_iff, Set.mem_Ico]
    refine ⟨div_nonneg hres (by norm_num), ?_⟩
    rw [div_lt_one (by norm_num : (0:ℚ) < 360)]
    linarith
  simp only [calcular_orbe_atual, posicao_p2, calcular_posicao_planeta, eph_c8,
    pymod, ratFloor_eq, angular_difference, habs]
  rw [hfl]
  norm_num
  rw [hfl]
  norm_num
  rw [abs_of_nonneg hres, if_pos (by linarith)]

theorem amostras_c8_eval :
    amostras24 (calcular_orbe_atual eph_c8 1 (Sum.inr 0) 0) 0 23 = amostrasC8Lit := by
  norm_num [amostras24, range24_eq, amostrasC8Lit, hf_c8_le, hf_c8_ge, abs_of_nonneg]

set_option maxRecDepth 8000 in
theorem melhor_c8_eval : melhorAmostra amostrasC8Lit = (10, 2/3) := by
  norm_num [amostrasC8Lit, melhorAmostra]

set_option maxRecDepth 8000 in
theorem locmin_c8_eval : localMinBracket amostrasC8Lit = some (9, 11) := by
  norm_num [amostrasC8Lit, localMinBracket]

set_option maxRecDepth 4000 in
theorem buscar_c8_eval :
    buscar_transito_exato eph_c8 0 23 1 (Sum.inr 0) 0 8 = (5291/512, 1/768) := by
  have b0 : bisseccoes (calcular_orbe_atual eph_c8 1 (Sum.inr 0) 0) 0
      (2645/256) (5291/512) (5291/512, 1/768) = Sum.inr (5291/512, 1/768) := rfl
  have b1 : bisseccoes (calcular_orbe_atual eph_c8 1 (Sum.inr 0) 0) 1
      (2645/256) (1323/128) (2645/256, 1/384) = Sum.inr (5291/512, 1/768) := by
    rw [show (1:ℕ) = 0 + 1 from rfl, bisseccoes_succ]
    norm_num [hf_c8_le, hf_c8_ge, abs_of_nonneg, b0]
  have b2 : bisseccoes (calcular_orbe_atual eph_c8 1 (Sum.inr 0) 0) 2
      (661/64) (1323/128) (1323/128, 1/192) = Sum.inr (5291/512, 1/768) := by
    rw [show (2:ℕ) = 1 + 1 from rfl, bisseccoes_succ]
    norm_num [hf_c8_le, hf_c8_ge, abs_of_nonneg, b1]
  have b3 : bisseccoes (calcular_orbe_atual eph_c8 1 (Sum.inr 0) 0) 3
      (661/64) (331/32) (661/64, 1/96) = Sum.inr (5291/512, 1/768) := by
    rw [show (3:ℕ) = 2 + 1 from rfl, bisseccoes_succ]
    norm_num [hf_c8_le, hf_c8_ge, abs_of_nonneg, b2]
  have b4 : bisseccoes (calcular_orbe_atual eph_c8 1 (Sum.inr 0) 0) 4
      (165/16) (331/32) (331/32, 1/48) = Sum.inr (5291/512, 1/768) := by
    rw [show (4:ℕ) = 3 + 1 from rfl, bisseccoes_succ]
    norm_num [hf_c8_le, hf_c8_ge, abs_of_nonneg, b3]
  have b5 : bisseccoes (calcular_orbe_atual eph_c8 1 (Sum.inr 0) 0) 5
      (165/16) (83/8) (165/16, 1/24) = Sum.inr (5291/512, 1/768) := by
    rw [show (5:ℕ) = 4 + 1 from rfl, bisseccoes_succ]
    norm_num [hf_c8_le, hf_c8_ge, abs_of_nonneg, b4]
  have b6 : bisseccoes (calcular_orbe_atual eph_c8 1 (Sum.inr 0) 0) 6
      (41/4) (83/8) (83/8, 1/12) = Sum.inr (5291/512, 1/768) := by
    rw [show (6:ℕ) = 5 + 1 from rfl, bisseccoes_succ]
    norm_num [hf_c8_le, hf_c8_ge, abs_of_nonneg, b5]
  have b7 : bisseccoes (calcular_orbe_atual eph_c8 1 (Sum.inr 0) 0) 7
      (41/4) (21/2) (41/4, 1/6) = Sum.inr (5291/512, 1/768) := by
    rw [show (7:ℕ) = 6 + 1 from rfl, bisseccoes_succ]
    norm_num [hf_c8_le, hf_c8_ge, abs_of_nonneg, b6]
  have b8 : bisseccoes (calcular_orbe_atual eph_c8 1 (Sum.inr 0) 0) 8
      (10) (21/2) (21/2, 1/3) = Sum.inr (5291/512, 1/768) := by
    rw [show (8:ℕ) = 7 + 1 from rfl, bisseccoes_succ]
    norm_num [hf_c8_le, hf_c8_ge, abs_of_nonneg, b7]
  have b9 : bisseccoes (calcular_orbe_atual eph_c8 1 (Sum.inr 0) 0) 9
      (10) (11) (10, 2/3) = Sum.inr (5291/512, 1/768) := by
    rw [show (9:ℕ) = 8 + 1 from rfl, bisseccoes_succ]
    norm_num [hf_c8_le, hf_c8_ge, abs_of_nonneg, b8]
  have b10 : bisseccoes (calcular_orbe_atual eph_c8 1 (Sum.inr 0) 0) 10
      (9) (11) (10, 2/3) = Sum.inr (5291/512, 1/768) := by
    rw [show (10:ℕ) = 9 + 1 from rfl, bisseccoes_succ]
    norm_num [hf_c8_le, hf_c8_ge, abs_of_nonneg, b9]
  rw [buscar_transito_exato_eq, amostras_c8_eval, melhor_c8_eval, locmin_c8_eval]
  norm_num [b10]

/-- C8 counterexample: on the exactly linear signed error `2*(jd - 31/3)`
of `eph_c8` (an exact root at `jd = 31/3` inside the bracket, where a
single secant update from the last two iterates would land exactly, with
signed error 0), the search spends its whole budget of 10 bisections and
returns the residual `1/768`, which is above the `0.001` stopping floor:
no secant-acceleration phase, no signed-error update, no 20-iteration
budget exists in `buscar_transito_exato`. -/
theorem buscar_transito_residual_linear :
    buscar_transito_exato eph_c8 0 23 1 (Sum.inr 0) 0 8 = (5291/512, 1/768) ∧
      (1/1000 : ℚ) < 1/768 ∧
      calcular_orbe_atual eph_c8 1 (Sum.inr 0) 0 (31/3) = 0 := by
  refine ⟨buscar_c8_eval, by norm_num, ?_⟩
  rw [hf_c8_ge (31/3) (le_refl _) (by norm_num)]
  norm_num

/-- C8 (amended). `buscar_transito_exato` applies no secant-acceleration
phase: its refinement after the 24-sample coarse phase is the
error-minimisation bisection alone (budget 10, early exit at `0.001`), so
every non-sentinel result is just an instant inside the search window paired
with the absolute signed error evaluated there (and on a linear signed
error, where one secant step from the last two iterates would land exactly
on the root, the returned residual can stay above the `0.001` floor — see
the counterexample). -/
theorem buscar_transito_sem_secante (eph : ℚ → Int → ℚ) (jd_inicio jd_fim : ℚ)
    (planeta1 : Int) (planeta2 : Int ⊕ ℚ) (angulo_aspecto orbe : ℚ)
    (hw : jd_inicio ≤ jd_fim) (ho : orbe < 999) :
    buscar_transito_exato eph jd_inicio jd_fim planeta1 planeta2 angulo_aspecto orbe
        ≠ (0, 999) →
    ∃ t, jd_inicio ≤ t ∧ t ≤ jd_fim ∧
      buscar_transito_exato eph jd_inicio jd_fim planeta1 planeta2 angulo_aspecto orbe
        = (t, |calcular_orbe_atual eph planeta1 planeta2 angulo_aspecto t|) := by
  intro hne
  rw [buscar_transito_exato_eq] at hne ⊢
  set F := calcular_orbe_atual eph planeta1 planeta2 angulo_aspecto with hF
  set A := amostras24 F jd_inicio jd_fim with hA
  set M := melhorAmostra A with hM
  set B := (if ((localMinBracket A).getD (0, 0)).1 = 0
            then fallbackBracket A M.1 else (localMinBracket A).getD (0, 0)) with hB
  have hwin : ∀ s ∈ A, jd_inicio ≤ s.1 ∧ s.1 ≤ jd_fim :=
    fun s hs => (amostras24_mem F jd_inicio jd_fim hw s hs).1
  have hval : ∀ s ∈ A, s.2 = |F s.1| :=
    fun s hs => (amostras24_mem F jd_inicio jd_fim hw s hs).2
  have hB1 : ∃ s ∈ A, s.1 = B.1 := by
    rw [hB]
    by_cases hz : ((localMinBracket A).getD (0, 0)).1 = 0
    · rw [if_pos hz]
      exact (fallbackBracket_mem A M.1 (amostras24_length F jd_inicio jd_fim)).1
    · rw [if_neg hz]
      cases hlm : localMinBracket A with
      | none =>
        exfalso
        apply hz
        rw [hlm]
        rfl
      | some p =>
        rw [Option.getD_some]
        exact (localMinBracket_mem A p hlm).1
  have hB2 : ∃ s ∈ A, s.1 = B.2 := by
    rw [hB]
    by_cases hz : ((localMinBracket A).getD (0, 0)).1 = 0
    · rw [if_pos hz]
      exact (fallbackBracket_mem A M.1 (amostras24_length F jd_inicio jd_fim)).2
    · rw [if_neg hz]
      cases hlm : localMinBracket A with
      | none =>
        exfalso
        apply hz
        rw [hlm]
        rfl
      | some p =>
        rw [Option.getD_some]
        exact (localMinBracket_mem A p hlm).2
  obtain ⟨s1, hs1, he1⟩ := hB1
  obtain ⟨s2, hs2, he2⟩ := hB2
  have hB1w : jd_inicio ≤ B.1 ∧ B.1 ≤ jd_fim := he1 ▸ hwin s1 hs1
  have hB2w : jd_inicio ≤ B.2 ∧ B.2 ≤ jd_fim := he2 ▸ hwin s2 hs2
  have hMok : M = (0, 999) ∨
      (jd_inicio ≤ M.1 ∧ M.1 ≤ jd_fim ∧ M.2 = |F M.1|) := by
    rcases (melhorAmostra_spec A).1 with h | ⟨s, hs, he⟩
    · exact Or.inl (hM.trans h)
    · right
      rw [hM, he]
      exact ⟨(hwin s hs).1, (hwin s hs).2, hval s hs⟩
  by_cases hg : M.2 > orbe * (3/2)
  · rw [if_pos hg] at hne
    exact absurd rfl hne
  · rw [if_neg hg] at hne ⊢
    cases hbis : bisseccoes F 10 B.1 B.2 M with
    | inl r =>
      dsimp only at hne ⊢
      obtain ⟨hr1, hr2, hr3, _⟩ :=
        bisseccoes_inl F jd_inicio jd_fim 10 B.1 B.2 M r
          hB1w.1 hB1w.2 hB2w.1 hB2w.2 hbis
      refine ⟨r.1, hr1, hr2, ?_⟩
      rw [← hr3]
    | inr m =>
      dsimp only at hne ⊢
      by_cases hok : m.2 ≤ orbe
      · rw [if_pos hok]
        obtain ⟨_, hcases⟩ :=
          bisseccoes_inr F jd_inicio jd_fim 10 B.1 B.2 M m
            hB1w.1 hB1w.2 hB2w.1 hB2w.2 hMok hbis
        rcases hcases with h | ⟨hm1, hm2, hm3⟩
        · exfalso
          have : m.2 = 999 := by rw [h]
          linarith [hok, ho, this ▸ hok]
        · refine ⟨m.1, hm1, hm2, ?_⟩
          rw [← hm3]
      · rw [hbis] at hne
        dsimp only at hne
        rw [if_neg hok] at hne
        exact absurd rfl hne

/-- Witness for C8 (amended) at a concrete input: the constant-zero
ephemeris over `[0, 1/200]` with a conjunction aspect. -/
theorem buscar_transito_sem_secante_witness :
    0 ≤ (1/9200 : ℚ) ∧ (1/9200 : ℚ) ≤ 1/200 ∧
      buscar_transito_exato eph_zero 0 (1/200) 0 (Sum.inl 1) 0 8
        = (1/9200, |calcular_orbe_atual eph_zero 0 (Sum.inl 1) 0 (1/9200)|) := by
  obtain ⟨t, h1, h2, h3⟩ :=
    buscar_transito_sem_secante eph_zero 0 (1/200) 0 (Sum.inl 1) 0 8
      (by norm_num) (by norm_num)
      (by rw [buscar_zero_eval]; intro hc; simp only [Prod.mk.injEq] at hc; norm_num at hc)
  rw [buscar_zero_eval] at h3
  have ht : t = 1/9200 := by
    have := congrArg Prod.fst h3
    simpa using this.symm
  rw [ht] at h1 h2 h3
  exact ⟨h1, h2, by rw [buscar_zero_eval]; exact h3⟩

-- ------------------------------------------------------------------ --
-- The transit scanner.
-- ------------------------------------------------------------------ --

theorem passo_par_spec (eph : ℚ → Int → ℚ) (ji jf : ℚ) (p1 p2 : Int) (nome : String)
    (asp orbe : ℚ) (ab : ℚ × ℚ) (t : Transito)
    (h : passo_par eph ji jf p1 p2 nome asp orbe ab = some t) :
    t.tipo = "aspecto" ∧ 0 < t.jd_exato ∧ ji ≤ t.jd_exato ∧ t.jd_exato ≤ jf ∧
      t.orbe < 1/200 := by
  simp only [passo_par] at h
  split_ifs at h with h1 h2
  · simp only [Option.some.injEq] at h
    rw [← h]
    exact ⟨rfl, h2.1, h2.2.1, h2.2.2.1, h2.2.2.2⟩
  all_goals simp at h

theorem passo_ponto_spec (eph : ℚ → Int → ℚ) (ji jf : ℚ) (pc : Int) (nome : String)
    (lon asp orbe : ℚ) (ab : ℚ × ℚ) (t : Transito)
    (h : passo_ponto eph ji jf pc nome lon asp orbe ab = some t) :
    t.tipo = "aspecto" ∧ 0 < t.jd_exato ∧ ji ≤ t.jd_exato ∧ t.jd_exato ≤ jf ∧
      t.orbe < 1/200 := by
  simp only [passo_ponto] at h
  split_ifs at h with h1 h2
  · simp only [Option.some.injEq] at h
    rw [← h]
    exact ⟨rfl, h2.1, h2.2.1, h2.2.2.1, h2.2.2.2⟩
  all_goals simp at h

theorem calcular_transitos_mem (eph : ℚ → Int → ℚ) (ji jf : ℚ)
    (pontos_fixos : List (String × ℚ)) :
    ∀ t ∈ calcular_transitos eph ji jf pontos_fixos,
      t.tipo = "aspecto" ∧ 0 < t.jd_exato ∧ ji ≤ t.jd_exato ∧ t.jd_exato ≤ jf ∧
        t.orbe < 1/200 := by
  intro t ht
  simp only [calcular_transitos] at ht
  have ht2 := deduplicate_subset _ _ t ht
  rcases List.mem_append.mp ht2 with h | h
  · obtain ⟨pq, _, h3⟩ := List.mem_flatMap.mp h
    obtain ⟨ao, _, h5⟩ := List.mem_flatMap.mp h3
    obtain ⟨ab, _, h7⟩ := List.mem_filterMap.mp h5
    exact passo_par_spec eph ji jf pq.1.2 pq.2.2 pq.2.1 ao.1 ao.2 ab t h7
  · obtain ⟨ponto, _, h3⟩ := List.mem_flatMap.mp h
    obtain ⟨p, _, h5⟩ := List.mem_flatMap.mp h3
    obtain ⟨ao, _, h7⟩ := List.mem_flatMap.mp h5
    obtain ⟨ab, _, h9⟩ := List.mem_filterMap.mp h7
    exact passo_ponto_spec eph ji jf p.2 ponto.1 ponto.2 ao.1 ao.2 ab t h9

/-- C1 (amended). For an orb of at least the `0.001` early-exit floor (and
below the meaningless `666`), the sentinel `(0.0, 999.0)` is returned
exactly when the coarse gate fails (best of the 24 samples above `1.5x` the
orb) or the bisection runs its full budget and its best residual still
exceeds the orb; every non-sentinel result then carries a residual at most
the orb; and the scanner `calcular_transitos` records an event only when
the instant is positive, lies inside the scan window, and the residual is
below `0.005` degrees.  (For orbs below `0.001` the early exit can accept a
residual above the orb: see the counterexample.) -/
theorem buscar_transito_sentinela (eph : ℚ → Int → ℚ) (jd_inicio jd_fim : ℚ)
    (planeta1 : Int) (planeta2 : Int ⊕ ℚ) (angulo_aspecto orbe : ℚ)
    (h1 : 1/1000 ≤ orbe) (h2 : orbe < 666) :
    (buscar_transito_exato eph jd_inicio jd_fim planeta1 planeta2 angulo_aspecto orbe
        = (0, 999) ↔
      ((melhorAmostra (amostras24 (calcular_orbe_atual eph planeta1 planeta2
            angulo_aspecto) jd_inicio jd_fim)).2 > orbe * (3/2) ∨
        ∃ m, bisseccoes (calcular_orbe_atual eph planeta1 planeta2 angulo_aspecto) 10
            (if ((localMinBracket (amostras24 (calcular_orbe_atual eph planeta1 planeta2
                  angulo_aspecto) jd_inicio jd_fim)).getD (0, 0)).1 = 0
             then fallbackBracket (amostras24 (calcular_orbe_atual eph planeta1 planeta2
                  angulo_aspecto) jd_inicio jd_fim)
                (melhorAmostra (amostras24 (calcular_orbe_atual eph planeta1 planeta2
                  angulo_aspecto) jd_inicio jd_fim)).1
             else (localMinBracket (amostras24 (calcular_orbe_atual eph planeta1 planeta2
                  angulo_aspecto) jd_inicio jd_fim)).getD (0, 0)).1
            (if ((localMinBracket (amostras24 (calcular_orbe_atual eph planeta1 planeta2
                  angulo_aspecto) jd_inicio jd_fim)).getD (0, 0)).1 = 0
             then fallbackBracket (amostras24 (calcular_orbe_atual eph planeta1 planeta2
                  angulo_aspecto) jd_inicio jd_fim)
                (melhorAmostra (amostras24 (calcular_orbe_atual eph planeta1 planeta2
                  angulo_aspecto) jd_inicio jd_fim)).1
             else (localMinBracket (amostras24 (calcular_orbe_atual eph planeta1 planeta2
                  angulo_aspecto) jd_inicio jd_fim)).getD (0, 0)).2
            (melhorAmostra (amostras24 (calcular_orbe_atual eph planeta1 planeta2
                  angulo_aspecto) jd_inicio jd_fim))
          = Sum.inr m ∧ orbe < m.2)) ∧
    (buscar_transito_exato eph jd_inicio jd_fim planeta1 planeta2 angulo_aspecto orbe
        ≠ (0, 999) →
      (buscar_transito_exato eph jd_inicio jd_fim planeta1 planeta2 angulo_aspecto
        orbe).2 ≤ orbe) ∧
    (∀ pontos_fixos : List (String × ℚ),
      ∀ t ∈ calcular_transitos eph jd_inicio jd_fim pontos_fixos,
        0 < t.jd_exato ∧ jd_inicio ≤ t.jd_exato ∧ t.jd_exato ≤ jd_fim ∧
          t.orbe < 1/200) := by
  refine ⟨?_, ?_, fun pontos_fixos t ht =>
    ((calcular_transitos_mem eph jd_inicio jd_fim pontos_fixos t ht).2)⟩
  · rw [buscar_transito_exato_eq]
    set F := calcular_orbe_atual eph planeta1 planeta2 angulo_aspecto with hF
    set A := amostras24 F jd_inicio jd_fim with hA
    set M := melhorAmostra A with hM
    set B := (if ((localMinBracket A).getD (0, 0)).1 = 0
              then fallbackBracket A M.1 else (localMinBracket A).getD (0, 0)) with hB
    by_cases hg : M.2 > orbe * (3/2)
    · rw [if_pos hg]
      exact ⟨fun _ => Or.inl hg, fun _ => rfl⟩
    · rw [if_neg hg]
      cases hbis : bisseccoes F 10 B.1 B.2 M with
      | inl r =>
        dsimp only
        obtain ⟨_, hr2⟩ := bisseccoes_inl_residual F 10 B.1 B.2 M r hbis
        constructor
        · intro hc
          exfalso
          have h999 : r.2 = 999 := by rw [hc]
          rw [h999] at hr2
          norm_num at hr2
        · rintro (hcg | ⟨m, hm, _⟩)
          · exact absurd hcg hg
          · exact absurd hm (by simp)
      | inr m =>
        dsimp only
        by_cases hok : m.2 ≤ orbe
        · rw [if_pos hok]
          constructor
          · intro hc
            exfalso
            have h999 : m.2 = 999 := by rw [hc]
            rw [h999] at hok
            linarith
          · rintro (hcg | ⟨m2, hm2, hlt2⟩)
            · exact absurd hcg hg
            · simp only [Sum.inr.injEq] at hm2
              rw [hm2] at hok
              exact absurd hlt2 (not_lt.mpr hok)
        · rw [if_neg hok]
          exact ⟨fun _ => Or.inr ⟨m, rfl, not_le.mp hok⟩, fun _ => rfl⟩
  · rw [buscar_transito_exato_eq]
    set F := calcular_orbe_atual eph planeta1 planeta2 angulo_aspecto with hF
    set A := amostras24 F jd_inicio jd_fim with hA
    set M := melhorAmostra A with hM
    set B := (if ((localMinBracket A).getD (0, 0)).1 = 0
              then fallbackBracket A M.1 else (localMinBracket A).getD (0, 0)) with hB
    by_cases hg : M.2 > orbe * (3/2)
    · rw [if_pos hg]
      intro hne
      exact absurd rfl hne
    · rw [if_neg hg]
      cases hbis : bisseccoes F 10 B.1 B.2 M with
      | inl r =>
        dsimp only
        intro _
        obtain ⟨_, hr2⟩ := bisseccoes_inl_residual F 10 B.1 B.2 M r hbis
        exact hr2.trans h1
      | inr m =>
        dsimp only
        by_cases hok : m.2 ≤ orbe
        · rw [if_pos hok]
          intro _
          exact hok
        · rw [if_neg hok]
          intro hne
          exact absurd rfl hne

/-- Witness for C1 (amended) at a concrete input: orb `8`, constant-zero
ephemeris over `[0, 1/200]`; the non-sentinel result has residual at most
the orb. -/
theorem buscar_transito_sentinela_witness :
    (1/1000 : ℚ) ≤ 8 ∧ (8 : ℚ) < 666 ∧
      (buscar_transito_exato eph_zero 0 (1/200) 0 (Sum.inl 1) 0 8).2 ≤ 8 := by
  refine ⟨by norm_num, by norm_num, ?_⟩
  apply (buscar_transito_sentinela eph_zero 0 (1/200) 0 (Sum.inl 1) 0 8
    (by norm_num) (by norm_num)).2.1
  rw [buscar_zero_eval]
  intro hc
  simp only [Prod.mk.injEq] at hc
  norm_num at hc

theorem scan_lua_eval : scanSteps (1/200) (1/200) 0 = [(0, 1/200)] := by
  rw [scanSteps]
  norm_num
  rw [scanSteps]
  norm_num

theorem passo_par_lua_eval :
    passo_par eph_zero 0 (1/200) 0 1 "LUA" 0 8 (0, 1/200) =
      some ⟨1/9200, 0, 1, 0, 0, 0, 0, "aspecto", "LUA"⟩ := by
  simp only [passo_par]
  norm_num [calcular_posicao_planeta, pymod, angular_difference, ratFloor_eq,
    buscar_zero_eval, eph_zero]

/-- C9 counterexample: a concrete run of the scanner (constant-zero
ephemeris, window `[0, 1/200]`, no fixed points) emits at least one event,
and none of its events has kind `'PAR'` or `'CPA'`: the declination pass
the spec describes does not exist. -/
theorem calcular_transitos_sem_par_cpa :
    0 < (calcular_transitos eph_zero 0 (1/200) []).length ∧
      (calcular_transitos eph_zero 0 (1/200) []).all
        (fun t => t.tipo != "PAR" && t.tipo != "CPA") = true := by
  constructor
  · rw [List.length_pos]
    simp only [calcular_transitos]
    apply deduplicate_ne_nil
    apply List.ne_nil_of_mem
      (a := (⟨1/9200, 0, 1, 0, 0, 0, 0, "aspecto", "LUA"⟩ : Transito))
    apply List.mem_append_left
    refine List.mem_flatMap.mpr ⟨(("SOL", 0), ("LUA", 1)), by decide, ?_⟩
    refine List.mem_flatMap.mpr ⟨(0, 8), by simp [ORBES_PADRAO], ?_⟩
    dsimp only
    rw [show determinar_intervalo 0 1 = 1/200 from rfl, scan_lua_eval]
    exact List.mem_filterMap.mpr ⟨(0, 1/200), List.mem_cons_self _ _, passo_par_lua_eval⟩
  · rw [List.all_eq_true]
    intro t ht
    show (t.tipo != "PAR" && t.tipo != "CPA") = true
    rw [(calcular_transitos_mem eph_zero 0 (1/200) [] t ht).1]
    rfl

/-- C9 (amended). `calcular_transitos` runs only the two longitude passes
(planet-planet and moving-planet x fixed-point): every event it emits has
kind `"aspecto"`.  There is no declination pass and no `'PAR'`/`'CPA'`
event is ever produced (although `_deduplicate_transitos` is prepared to
group such kinds and `calcular_declinacao_planeta` exists, unused). -/
theorem calcular_transitos_tipo_aspecto (eph : ℚ → Int → ℚ) (ji jf : ℚ)
    (pontos_fixos : List (String × ℚ)) :
    (calcular_transitos eph ji jf pontos_fixos).all
      (fun t => t.tipo == "aspecto") = true := by
  rw [List.all_eq_true]
  intro t ht
  show (t.tipo == "aspecto") = true
  rw [(calcular_transitos_mem eph ji jf pontos_fixos t ht).1]
  rfl

/-- C10. The sign index `int((graus % 360)/30)` computed by
`graus_para_signo_posicao` lies in `0..11`, so the (guard-free) lookup into
the 12-entry `SIGNOS` table is always in bounds: the sign returned is always
one of the 12 table entries. -/
theorem graus_para_signo_idx_in_bounds (graus : ℚ) :
    0 ≤ graus_para_signo_idx graus ∧ graus_para_signo_idx graus ≤ 11 ∧
    (graus_para_signo_posicao graus).1 ∈ SIGNOS := by
  have h0 : 0 ≤ pymod graus 360 := pymod_nonneg graus 360 (by norm_num)
  have h1 : pymod graus 360 < 360 := pymod_lt graus 360 (by norm_num)
  have hq0 : 0 ≤ pymod graus 360 / 30 := by positivity
  have hq1 : pymod graus 360 / 30 < 12 := by
    rw [div_lt_iff₀ (by norm_num : (0:ℚ) < 30)]; linarith
  have hfl : graus_para_signo_idx graus = ⌊pymod graus 360 / 30⌋ := by
    rw [graus_para_signo_idx, pytrunc_eq_floor _ hq0]
  have hlow : 0 ≤ graus_para_signo_idx graus := by
    rw [hfl]; exact Int.floor_nonneg.mpr hq0
  have hhigh : graus_para_signo_idx graus ≤ 11 := by
    rw [hfl]
    have : ⌊pymod graus 360 / 30⌋ < 12 := by
      rw [Int.floor_lt]; exact_mod_cast hq1
    omega
  refine ⟨hlow, hhigh, ?_⟩
  have hlen : (graus_para_signo_idx graus).toNat < SIGNOS.length := by
    simp only [SIGNOS, List.length]
    omega
  have : (graus_para_signo_posicao graus).1 =
      SIGNOS.getD (graus_para_signo_idx graus).toNat "" := rfl
  rw [this, List.getD_eq_getElem?_getD, List.getElem?_eq_getElem hlen,
    Option.getD_some]
  exact List.getElem_mem hlen
